import Mathlib

/-!
# Verification of the multigtfs base conversion layer

Shallow embedding of `multigtfs/models/base.py`: the GTFS column-mapping
engine (`Base.import_txt`, `BaseQuerySet.export_txt`) together with the
per-field converters it dispatches on.  Field descriptors, the column map,
and the record store are modelled explicitly; Django's ORM operations
(`create`, `get_or_create`, `exclude(...).exists()`, many-to-many `add`)
become explicit state passing over a `Store`.
-/

namespace MultiGtfs

/-! ## Date parsing: `datetime.strptime(value, '%Y%m%d')`

Python's `_strptime` compiles `'%Y%m%d'` to the regular expression
`(\d\d\d\d)(1[0-2]|0[1-9]|[1-9])(3[01]|[12]\d|0[1-9]|[1-9]| [1-9])`,
requires the whole input string to be consumed, and then validates the
resulting calendar date (`datetime(year, month, day)` raises for year 0 or
a day beyond the month's length).  Alternation is leftmost with
backtracking; the day pattern's last alternative accepts a space-padded
single digit (kept in CPython so `%c` output from ANSI C parses back).
-/

/-- Numeric value of a digit character. -/
def digitVal (c : Char) : Nat := c.toNat - 48

/-- Is this year a Gregorian leap year? -/
def isLeap (y : Nat) : Bool := (y % 4 == 0 && y % 100 != 0) || y % 400 == 0

/-- Number of days in a month (as `datetime` validates them). -/
def daysInMonth (y m : Nat) : Nat :=
  if m = 2 then (if isLeap y then 29 else 28)
  else if m = 4 ∨ m = 6 ∨ m = 9 ∨ m = 11 then 30
  else 31

/-- Match the `%d` pattern `3[01]|[12]\d|0[1-9]|[1-9]| [1-9]` against the
whole remainder of the input (strptime requires full consumption, so a day
alternative that leaves characters over fails and backtracking moves on).
The alternatives of length two are mutually exclusive on their first
character (`'3'`, `'1'`/`'2'`, `'0'`, `' '`), so trying them in pattern
order is the regex's leftmost-alternation behaviour. -/
def dayFull : List Char → Option Nat
  | [c] => if '1' ≤ c ∧ c ≤ '9' then some (digitVal c) else none
  | [c1, c2] =>
      if c1 = '3' ∧ ('0' ≤ c2 ∧ c2 ≤ '1') then some (30 + digitVal c2)
      else if (c1 = '1' ∨ c1 = '2') ∧ c2.isDigit then
        some (10 * digitVal c1 + digitVal c2)
      else if c1 = '0' ∧ ('1' ≤ c2 ∧ c2 ≤ '9') then some (digitVal c2)
      else if c1 = ' ' ∧ ('1' ≤ c2 ∧ c2 ≤ '9') then some (digitVal c2)
      else none
  | _ => none

/-- First `%m` alternative `1[0-2]`, followed by `%d` on the rest. -/
def mdAlt1 : List Char → Option (Nat × Nat)
  | c1 :: c2 :: rest =>
      if c1 = '1' ∧ ('0' ≤ c2 ∧ c2 ≤ '2') then
        (dayFull rest).map (fun d => (10 + digitVal c2, d))
      else none
  | _ => none

/-- Second `%m` alternative `0[1-9]`, followed by `%d` on the rest. -/
def mdAlt2 : List Char → Option (Nat × Nat)
  | c1 :: c2 :: rest =>
      if c1 = '0' ∧ ('1' ≤ c2 ∧ c2 ≤ '9') then
        (dayFull rest).map (fun d => (digitVal c2, d))
      else none
  | _ => none

/-- Third `%m` alternative `[1-9]` (one digit), followed by `%d`. -/
def mdAlt3 : List Char → Option (Nat × Nat)
  | c1 :: rest =>
      if '1' ≤ c1 ∧ c1 ≤ '9' then
        (dayFull rest).map (fun d => (digitVal c1, d))
      else none
  | [] => none

/-- Match `%m%d` (`(1[0-2]|0[1-9]|[1-9])` then `%d`) against the whole
remainder, with the regex's backtracking: month alternatives are tried in
order, and a month alternative whose day fails to consume the rest is
abandoned for the next one. -/
def monthDay (cs : List Char) : Option (Nat × Nat) :=
  ((mdAlt1 cs).orElse (fun _ => mdAlt2 cs)).orElse (fun _ => mdAlt3 cs)

/-- `datetime.strptime(value, '%Y%m%d')`: four digit characters of year,
then `%m%d` consuming the rest, then calendar validation (year at least 1,
day within the month; the regex already guarantees month 1–12 and day
1–31, a space-padded day being 1–9). Returns `(year, month, day)`. -/
def strptimeYmd (cs : List Char) : Option (Nat × Nat × Nat) :=
  match cs with
  | y1 :: y2 :: y3 :: y4 :: rest =>
      if y1.isDigit ∧ y2.isDigit ∧ y3.isDigit ∧ y4.isDigit then
        match monthDay rest with
        | some (m, d) =>
            let y := 1000 * digitVal y1 + 100 * digitVal y2 +
                     10 * digitVal y3 + digitVal y4
            if 1 ≤ y ∧ d ≤ daysInMonth y m then some (y, m, d) else none
        | none => none
      else none
  | _ => none

/-- The numeric value of a digit string (most significant first). -/
def ymdDigits (cs : List Char) : Nat := cs.foldl (fun a c => 10 * a + digitVal c) 0

/-- The spec's notion of well-formed date text, stated from its words
rather than from the code: a fixed 8-digit `YYYYMMDD` string denoting a
valid calendar date (month 1–12, day within the month, year at least 1 —
the proleptic Gregorian calendar has no year 0). -/
def validYmd8 (cs : List Char) : Prop :=
  cs.length = 8 ∧ (∀ c ∈ cs, c.isDigit = true) ∧
  1 ≤ ymdDigits (cs.take 4) ∧
  1 ≤ ymdDigits ((cs.drop 4).take 2) ∧ ymdDigits ((cs.drop 4).take 2) ≤ 12 ∧
  1 ≤ ymdDigits (cs.drop 6) ∧
  ymdDigits (cs.drop 6) ≤
    daysInMonth (ymdDigits (cs.take 4)) (ymdDigits ((cs.drop 4).take 2))

instance (cs : List Char) : Decidable (validYmd8 cs) := by
  unfold validYmd8
  infer_instance

/-- The other 8-character shape the program accepts: `YYYYMM D` with a
space-padded single-digit day (the `%d` pattern's ` [1-9]` alternative),
a two-digit month 01–12 and a year of at least 1.  The day 1–9 is within
every month's length, so no further calendar constraint applies. -/
def spacePadYmd8 (cs : List Char) : Prop :=
  cs.length = 8 ∧ (∀ c ∈ cs.take 6, c.isDigit = true) ∧
  cs.getD 6 '0' = ' ' ∧ '1' ≤ cs.getD 7 '0' ∧ cs.getD 7 '0' ≤ '9' ∧
  1 ≤ ymdDigits (cs.take 4) ∧
  1 ≤ ymdDigits ((cs.drop 4).take 2) ∧ ymdDigits ((cs.drop 4).take 2) ≤ 12

instance (cs : List Char) : Decidable (spacePadYmd8 cs) := by
  unfold spacePadYmd8
  infer_instance

/-! ## Data model

Field descriptors (`Field`), the column map (`GtfsModel.columnMap`, pairs of
GTFS column name and field pattern, where a pattern `a__b` addresses the
related model's lookup field `b` through the local relation field `a`),
field values, records and the record store.  Machine references (Django
model instances / foreign keys) are `Value.ref` carrying a numeric id.
-/

/-- The kind of a Django model field, as `import_txt`'s `isinstance` chain
distinguishes them.  Relation kinds carry the index of the related model
(`field.rel.to`). -/
inductive FieldKind : Type
  | date : FieldKind
  | boolean : FieldKind
  | char : FieldKind
  | fk : Nat → FieldKind
  | many : Nat → FieldKind
  | plain : FieldKind
  deriving DecidableEq, Repr

/-- `field.rel` is truthy exactly for relation fields. -/
def FieldKind.hasRel : FieldKind → Bool
  | .fk _ => true
  | .many _ => true
  | _ => false

/-- `isinstance(field, models.ManyToManyField)`. -/
def FieldKind.isMany : FieldKind → Bool
  | .many _ => true
  | _ => false

/-- Non-relation kinds (their converters neither touch nor read the store). -/
def FieldKind.isScalar : FieldKind → Bool
  | .date => true
  | .boolean => true
  | .char => true
  | .plain => true
  | _ => false

/-- `field.rel.to`, the related model (only meaningful for relation kinds). -/
def FieldKind.relTarget : FieldKind → Nat
  | .fk t => t
  | .many t => t
  | _ => 0

/-- A converted field value.  `ref` is a reference to a related record (or
the feed object); `null` is Python `None`. -/
inductive Value : Type
  | str : String → Value
  | null : Value
  | bool : Bool → Value
  | date : Nat → Nat → Nat → Value
  | ref : Nat → Value
  deriving DecidableEq, Repr

/-- A Django model field descriptor: its kind plus the `null`, `blank` and
default attributes the conversion layer inspects. -/
structure Field : Type where
  kind : FieldKind
  null : Bool
  blank : Bool
  hasDefault : Bool
  /-- `field.get_default()`, consulted only when `hasDefault` is true. -/
  default : Value
  deriving DecidableEq, Repr

/-- A record of a related model, as `get_or_create` on `field.rel.to`
keys it: the related model (`target`), the feed it belongs to, and the
designated lookup field (`rel_name`) with its value. -/
structure RelRecord : Type where
  id : Nat
  target : Nat
  feed : Nat
  lookupField : String
  lookup : String
  deriving DecidableEq, Repr

/-- A record of the model being imported/exported: its single-valued
fields and, per many-to-many field name, the list of related-record ids
(`add` keeps it duplicate-free). -/
structure Record : Type where
  fields : List (String × Value)
  m2m : List (String × List Nat)
  deriving DecidableEq, Repr

/-- The record store: the main model's records plus the related models'
records (with a fresh-id counter for creation). -/
structure Store : Type where
  records : List Record
  related : List RelRecord
  nextRelId : Nat
  deriving DecidableEq, Repr

/-- A model class: the `_column_map` class variable, the field registry
(`_meta.get_field_by_name`) and `_rel_to_feed`. -/
structure GtfsModel : Type where
  columnMap : List (String × String)
  registry : List (String × Field)
  relToFeed : String

/-! ## Column specifications

`import_txt` and `export_txt` both split each `field_pattern` on the first
`'__'` and look the local field name up in the model's meta.  A `ColSpec`
is the result of that shared preprocessing for one column-map entry.
-/

/-- Split a character list at the first occurrence of `"__"`
(Python `field_pattern.split('__', 1)` when `'__' in field_pattern`). -/
def splitOnDunder : List Char → Option (List Char × List Char)
  | [] => none
  | '_' :: '_' :: rest => some ([], rest)
  | c :: rest => (splitOnDunder rest).map (fun p => (c :: p.1, p.2))

/-- Separate the local field name from the foreign column:
`field_pattern.split('__', 1)` if `'__' in field_pattern`, else the
pattern itself with no foreign part. -/
def splitPattern (pat : String) : String × Option String :=
  match splitOnDunder pat.data with
  | some (a, b) => (String.mk a, some (String.mk b))
  | none => (pat, none)

/-- One preprocessed column-map entry. -/
structure ColSpec : Type where
  csvName : String
  fieldName : String
  field : Field
  relName : Option String
  deriving DecidableEq, Repr

/-- Is this column routed to `m2m_map` rather than `val_map`? -/
def ColSpec.isM2M (sp : ColSpec) : Bool := sp.field.kind.isMany

/-- `cls._meta.get_field_by_name(field_name)[0]`. -/
def lookupReg (reg : List (String × Field)) (name : String) : Option Field :=
  (reg.find? (fun p => p.1 = name)).map (fun p => p.2)

/-- Preprocess one column-map entry; `none` if the field name does not
resolve (Django raises `FieldDoesNotExist`). -/
def buildSpec (m : GtfsModel) (entry : String × String) : Option ColSpec :=
  let fr := splitPattern entry.2
  (lookupReg m.registry fr.1).map
    (fun f => { csvName := entry.1, fieldName := fr.1, field := f, relName := fr.2 })

/-- Preprocess the whole column map. -/
def buildSpecs (m : GtfsModel) : Option (List ColSpec) :=
  m.columnMap.mapM (buildSpec m)

/-- Column lookup during row processing.  `name_map` / `val_map` /
`m2m_map` are Python dicts keyed by csv column name, so a later
column-map entry with the same csv name overwrites an earlier one: the
last matching spec wins. -/
def findSpec (specs : List ColSpec) (col : String) : Option ColSpec :=
  specs.reverse.find? (fun sp => sp.csvName = col)

/-! ## Converters

The conversion functions set up at the top of `import_txt`.  A raw csv
cell is `Option String`: `none` is Python `None` (`DictReader`'s `restval`
for a short line), and Python truthiness of a cell is "present and
non-empty".  `instance_convert` touches the store (it may create a related
record), so converters act on `Store`; `date_convert` can fail.
-/

/-- A raw cell value as `DictReader` yields it. -/
abbrev Cell := Option String

/-- Python truthiness of a cell (`if value:`). -/
def truthy : Cell → Bool
  | none => false
  | some s => decide (s ≠ "")

/-- Errors the import can raise. -/
inductive ImpErr : Type
  | unexpectedColumn : String → ImpErr
  | parseError : ImpErr
  | configError : ImpErr
  | addNone : String → ImpErr
  deriving DecidableEq, Repr

/-- `no_convert = lambda value: value`. -/
def noConvert : Cell → Value
  | none => .null
  | some s => .str s

/-- `bool_convert = lambda value: value == '1'`. -/
def boolConvert (c : Cell) : Value := .bool (c = some "1")

/-- `char_convert = lambda value: value or ''`. -/
def charConvert (c : Cell) : Value := if truthy c then .str (c.getD "") else .str ""

/-- `null_convert = lambda value: value or None`. -/
def nullConvert (c : Cell) : Value := if truthy c then .str (c.getD "") else .null

/-- `default_convert(field)`: empty or missing text becomes
`field.get_default()`; anything else passes through. -/
def defaultConvert (f : Field) (c : Cell) : Value :=
  if c = some "" ∨ c = none then f.default else .str (c.getD "")

/-- `filter` of the related model's `get_or_create`: the first related
record of the target model, in this feed, whose designated lookup field
holds the given value. -/
def findRel (st : Store) (target feed : Nat) (lf v : String) : Option RelRecord :=
  st.related.find? (fun r =>
    r.target = target ∧ r.feed = feed ∧ r.lookupField = lf ∧ r.lookup = v)

/-- `field.rel.to.objects.get_or_create(**{rel_to_feed: feed, rel_name: value})`:
return the first related record of the target model in this feed whose
lookup field equals the value, creating it with a fresh id when absent. -/
def getOrCreateRel (st : Store) (target feed : Nat) (lf v : String) : Nat × Store :=
  match findRel st target feed lf v with
  | some r => (r.id, st)
  | none =>
      (st.nextRelId,
       { st with
         related := st.related ++
           [{ id := st.nextRelId, target := target, feed := feed,
              lookupField := lf, lookup := v }],
         nextRelId := st.nextRelId + 1 })

/-- `instance_convert(field, feed, rel_name)`: a falsy cell yields `None`;
otherwise find-or-create the related record and return a reference to it.
A relation column whose pattern carried no `'__'` part has `rel_name =
None`, and `get_or_create(**{None: ...})` is a `TypeError` in Python. -/
def instanceConvert (target feed : Nat) (relName : Option String) (st : Store)
    (c : Cell) : Except ImpErr (Value × Store) :=
  if truthy c then
    match relName with
    | some rn =>
        let p := getOrCreateRel st target feed rn (c.getD "")
        .ok (.ref p.1, p.2)
    | none => .error .configError
  else .ok (.null, st)

/-- `date_convert = lambda value: datetime.strptime(value, '%Y%m%d')`.
`strptime` of `None` is a `TypeError`; of unparsable text a `ValueError`. -/
def dateConvert (c : Cell) : Except ImpErr Value :=
  match c with
  | none => .error .parseError
  | some s =>
      match strptimeYmd s.data with
      | some ymd => .ok (.date ymd.1 ymd.2.1 ymd.2.2)
      | none => .error .parseError

/-- The converter-selection chain of `import_txt` (lines 126–140), applied
to one cell: `DateField`, then `BooleanField`, then `CharField`, then
`field.rel`, then `field.null`, then `field.has_default()`, else the
identity. -/
def fieldConvert (f : Field) (relName : Option String) (feed : Nat) (st : Store)
    (c : Cell) : Except ImpErr (Value × Store) :=
  if f.kind = .date then (dateConvert c).map (fun v => (v, st))
  else if f.kind = .boolean then .ok (boolConvert c, st)
  else if f.kind = .char then .ok (charConvert c, st)
  else if f.kind.hasRel then instanceConvert f.kind.relTarget feed relName st c
  else if f.null then .ok (nullConvert c, st)
  else if f.hasDefault then .ok (defaultConvert f c, st)
  else .ok (noConvert c, st)

/-! ## Row processing -/

/-- A csv row as `DictReader` yields it: column name to raw cell, in the
dict's iteration order. -/
abbrev Row := List (String × Cell)

/-- Python dict assignment `d[k] = v` on an association list: overwrite in
place when the key exists, append otherwise. -/
def setField (l : List (String × Value)) (k : String) (v : Value) :
    List (String × Value) :=
  if l.any (fun p => p.1 = k) then
    l.map (fun p => if p.1 = k then (k, v) else p)
  else l ++ [(k, v)]

/-- Accumulator of the per-row column loop: the `fields` and `m2ms` dicts
plus the store as mutated by converters so far. -/
structure RowOut : Type where
  fields : List (String × Value)
  m2ms : List (String × Value)
  store : Store
  deriving Repr

/-- The column loop of `import_txt` (lines 154–164): an undeclared column
with a truthy value raises; an undeclared falsy column is skipped; a
declared column is converted and routed to `fields` or `m2ms`.  On error
the store reached so far is returned alongside. -/
def processColumns (specs : List ColSpec) (feed : Nat) :
    Row → RowOut → Except (ImpErr × Store) RowOut
  | [], acc => .ok acc
  | (col, cell) :: rest, acc =>
      match findSpec specs col with
      | none =>
          if truthy cell then .error (.unexpectedColumn col, acc.store)
          else processColumns specs feed rest acc
      | some sp =>
          match fieldConvert sp.field sp.relName feed acc.store cell with
          | .error e => .error (e, acc.store)
          | .ok (v, st) =>
              if sp.isM2M then
                processColumns specs feed rest
                  { acc with m2ms := setField acc.m2ms sp.fieldName v, store := st }
              else
                processColumns specs feed rest
                  { acc with fields := setField acc.fields sp.fieldName v, store := st }

/-- Key lookup in a fields dict. -/
def lookupKV (l : List (String × Value)) (k : String) : Option Value :=
  (l.find? (fun p => p.1 = k)).map (fun p => p.2)

/-- Attribute lookup on a record's single-valued fields. -/
def lookupField (r : Record) (k : String) : Option Value :=
  lookupKV r.fields k

/-- Does the record match the `filter(**kwargs)` of `get_or_create`? -/
def recMatches (r : Record) (kw : List (String × Value)) : Bool :=
  kw.all (fun p => lookupField r p.1 = some p.2)

/-- `cls.objects.get_or_create(**fields)` on the main model: the index of
the first matching record, or a fresh record appended at the end. -/
def getOrCreate (st : Store) (kw : List (String × Value)) : Nat × Store :=
  match st.records.findIdx? (fun r => recMatches r kw) with
  | some i => (i, st)
  | none =>
      (st.records.length,
       { st with records := st.records ++ [{ fields := kw, m2m := [] }] })

/-- `related_manager.add(obj)`: set-union append of a related id. -/
def listAdd (l : List Nat) (i : Nat) : List Nat := if i ∈ l then l else l ++ [i]

/-- Per-record m2m list for a field name (empty when never added to). -/
def Record.m2mAt (r : Record) (fname : String) : List Nat :=
  ((r.m2m.find? (fun p => p.1 = fname)).map (fun p => p.2)).getD []

/-- `getattr(obj, field_name).add(value)` on a record. -/
def Record.addM2m (r : Record) (fname : String) (i : Nat) : Record :=
  if r.m2m.any (fun p => p.1 = fname) then
    { r with m2m := r.m2m.map (fun p => if p.1 = fname then (fname, listAdd p.2 i) else p) }
  else { r with m2m := r.m2m ++ [(fname, [i])] }

/-- The `for field_name, value in m2ms.items(): getattr(obj, field_name).add(value)`
loop on the record at index `idx`.  Adding `None` (a falsy m2m cell
converted to `null`) is a `TypeError` in Django's `add`. -/
def addAllM2m (st : Store) (idx : Nat) : List (String × Value) → Store × Option ImpErr
  | [] => (st, none)
  | (fname, v) :: rest =>
      match v with
      | .ref i =>
        match st.records.get? idx with
        | some r =>
            addAllM2m { st with records := st.records.set idx (r.addM2m fname i) } idx rest
        | none => (st, some .configError)
      | _ => (st, some (.addNone fname))

/-- The initial `fields` dict of a row: `{'feed': feed}` when the model's
feed relation uses the default name, `{}` otherwise. -/
def initFields (m : GtfsModel) (feed : Nat) : List (String × Value) :=
  if m.relToFeed = "feed" then [("feed", Value.ref feed)] else []

/-- Import one row (the body of the `for row in reader` loop, lines
149–170): process the columns, then either find-or-create plus m2m adds
(when the row produced m2m contributions) or an unconditional create. -/
def importRow (m : GtfsModel) (specs : List ColSpec) (feed : Nat) (st : Store)
    (row : Row) : Store × Option ImpErr :=
  match processColumns specs feed row
      { fields := initFields m feed, m2ms := [], store := st } with
  | .error p => (p.2, some p.1)
  | .ok out =>
      if out.m2ms = [] then
        ({ out.store with records := out.store.records ++ [{ fields := out.fields, m2m := [] }] },
         none)
      else
        let p := getOrCreate out.store out.fields
        addAllM2m p.2 p.1 out.m2ms

/-- Import a stream of rows; an exception aborts the remaining rows. -/
def importRows (m : GtfsModel) (specs : List ColSpec) (feed : Nat) :
    Store → List Row → Store × Option ImpErr
  | st, [] => (st, none)
  | st, row :: rest =>
      match importRow m specs feed st row with
      | (st1, none) => importRows m specs feed st1 rest
      | (st1, some e) => (st1, some e)

/-- `Base.import_txt(txt_file, feed)`: build the converter maps from the
column map, then import every row. -/
def importTxt (m : GtfsModel) (feed : Nat) (st : Store) (rows : List Row) :
    Store × Option ImpErr :=
  match buildSpecs m with
  | none => (st, some .configError)
  | some specs => importRows m specs feed st rows

/-! ## Export pipeline (`BaseQuerySet.export_txt`) -/

/-- The per-field blank sentinel the optional-column probe filters on:
`None` when the field is nullable, else `field.value_to_string(None)`,
which for a non-null blank-capable field without default goes through
`get_default()` and yields the empty string. -/
def blankValue (f : Field) : Value := if f.null then .null else .str ""

/-- `field.blank and not field.has_default()`: is the column optional? -/
def optionalField (f : Field) : Bool := f.blank && !f.hasDefault

/-- `self.exclude(**{field_name: blank}).exists()`: does some record hold a
non-blank value for the field?  Applied only to optional columns; a
non-optional column is always included. -/
def includeCol (records : List Record) (sp : ColSpec) : Bool :=
  if optionalField sp.field then
    records.any (fun r => !(lookupField r sp.fieldName = some (blankValue sp.field)))
  else true

/-- The `csv_names` list built by `export_txt` lines 16–34: the column-map
entries restricted to the included columns, in declaration order. -/
def exportColumns (specs : List ColSpec) (records : List Record) : List ColSpec :=
  specs.filter (includeCol records)

/-- An exported comma-separated file: the header of csv column names and
one row of serialized cells per record. -/
structure Csv : Type where
  header : List String
  rows : List (List String)
  deriving DecidableEq, Repr

/-- Modelled from the spec: the export serializer of `create_csv`
(`multigtfs.utils`, not part of the source under verification).  Per
spec §4.2 and §6: strings verbatim, null as empty text, boolean as
`"1"`/empty, dates as `YYYYMMDD`, and a relation as the related record's
designated lookup field value. -/
def serializeValue (st : Store) (v : Value) : String :=
  match v with
  | .str s => s
  | .null => ""
  | .bool b => if b then "1" else ""
  | .date y m d =>
      String.mk ([Nat.digitChar (y / 1000 % 10), Nat.digitChar (y / 100 % 10),
                  Nat.digitChar (y / 10 % 10), Nat.digitChar (y % 10),
                  Nat.digitChar (m / 10 % 10), Nat.digitChar (m % 10),
                  Nat.digitChar (d / 10 % 10), Nat.digitChar (d % 10)])
  | .ref i =>
      match st.related.find? (fun r => r.id = i) with
      | some r => r.lookup
      | none => ""

/-- Modelled from the spec: `create_csv(self, csv_names)` emits a header of
the included csv column names in column-map order, then one row per
record with each included field serialized. -/
def createCsv (st : Store) (records : List Record) (cols : List ColSpec) : Csv :=
  { header := cols.map (fun sp => sp.csvName),
    rows := records.map (fun r =>
      cols.map (fun sp => serializeValue st ((lookupField r sp.fieldName).getD .null))) }

/-- `BaseQuerySet.export_txt`: nothing at all for an empty record set,
otherwise the optional-column selection followed by csv creation.  A
column-map entry whose field does not resolve raises (`.error`). -/
def exportTxt (m : GtfsModel) (st : Store) (records : List Record) :
    Except ImpErr (Option Csv) :=
  if records.isEmpty then .ok none
  else
    match buildSpecs m with
    | none => .error .configError
    | some specs => .ok (some (createCsv st records (exportColumns specs records)))

/-- Turn an exported csv back into `DictReader` rows: each data line is
keyed by the header, every cell present. -/
def csvRows (c : Csv) : List Row :=
  c.rows.map (fun cells => c.header.zip (cells.map some))

/-- The values of a scalar field that the export serializer and the import
converter carry through losslessly: typed per the field's kind, with dates
in calendar range and, for fields whose converter sends empty text to null
or to a default, non-empty strings (or null itself for a nullable field). -/
def RoundTrippable (f : Field) (v : Value) : Prop :=
  match f.kind with
  | .char => ∃ s, v = .str s
  | .boolean => ∃ b, v = .bool b
  | .date => ∃ y mo d, v = .date y mo d ∧ 1 ≤ y ∧ y ≤ 9999 ∧ 1 ≤ mo ∧ mo ≤ 12 ∧
      1 ≤ d ∧ d ≤ daysInMonth y mo
  | .plain =>
      if f.null then v = .null ∨ ∃ s, v = .str s ∧ s ≠ ""
      else if f.hasDefault then ∃ s, v = .str s ∧ s ≠ ""
      else ∃ s, v = .str s
  | _ => False
/-! ## Concrete instances used by the witnesses -/

/-- A concrete plain nullable field. -/
def exPlainNull : Field :=
  { kind := .plain, null := true, blank := true, hasDefault := false, default := .null }

/-- A concrete plain defaulted field. -/
def exPlainDefault : Field :=
  { kind := .plain, null := false, blank := true, hasDefault := true, default := .str "7" }

/-- A concrete non-nullable string field. -/
def exChar : Field :=
  { kind := .char, null := false, blank := false, hasDefault := false, default := .null }

/-- The empty store. -/
def emptyStore : Store := { records := [], related := [], nextRelId := 0 }

/-- A nullable defaulted date field: the date rule still wins. -/
def exDateNullDefault : Field :=
  { kind := .date, null := true, blank := true, hasDefault := true, default := .null }

/-- A nullable string field with a default. -/
def exCharNullDefault : Field :=
  { kind := .char, null := true, blank := true, hasDefault := true, default := .str "D" }

/-- A foreign-key field targeting related model 1. -/
def exFk : Field :=
  { kind := .fk 1, null := true, blank := true, hasDefault := false, default := .null }

/-- A store holding one related record of model 1 in feed 7 with lookup
value `"Z1"`. -/
def exStoreZ : Store :=
  { records := [],
    related := [{ id := 0, target := 1, feed := 7, lookupField := "zone_id", lookup := "Z1" }],
    nextRelId := 1 }

/-- A model with two required string columns and an optional nullable
foreign key, as in the spec's stop/zone scenario. -/
def exStopModel : GtfsModel :=
  { columnMap := [("stop_code", "code"), ("zone_id", "zone__zone_id")],
    registry := [("code", exChar), ("zone", exFk)],
    relToFeed := "feed" }

/-- The preprocessed columns of `exStopModel`. -/
def exStopSpecs : List ColSpec :=
  [{ csvName := "stop_code", fieldName := "code", field := exChar, relName := none },
   { csvName := "zone_id", fieldName := "zone", field := exFk, relName := some "zone_id" }]

/-- A record using only the required column (blank zone). -/
def exR1 : Record :=
  { fields := [("feed", .ref 7), ("code", .str "S1"), ("zone", .null)], m2m := [] }

/-- A row for the stop model with an undeclared truthy column and an
undeclared falsy one. -/
def exRowBad : Row :=
  [("stop_code", some "S1"), ("bogus", some "x"), ("zone_id", some "")]

def exRowTolerated : Row :=
  [("stop_code", some "S1"), ("bogus", some ""), ("zone_id", some "Z1")]

/-- Row and model for the create-path witness: one required string
column, imported twice with identical values. -/
def exRowS1 : Row := [("stop_code", some "S1")]

/-- A many-to-many field targeting related model 2. -/
def exSvc : Field :=
  { kind := .many 2, null := false, blank := false, hasDefault := false, default := .null }

/-- A trip model with a required string column and an m2m services column. -/
def exTripModel : GtfsModel :=
  { columnMap := [("trip_id", "trip_id"), ("service_id", "services__service_id")],
    registry := [("trip_id", exChar), ("services", exSvc)],
    relToFeed := "feed" }

def exTripSpecs : List ColSpec :=
  [{ csvName := "trip_id", fieldName := "trip_id", field := exChar, relName := none },
   { csvName := "service_id", fieldName := "services", field := exSvc,
     relName := some "service_id" }]

def exRowT1A : Row := [("trip_id", some "T1"), ("service_id", some "A")]

def exRowT1B : Row := [("trip_id", some "T1"), ("service_id", some "B")]

/-- The column-loop output of `exRowT1A` on the empty store. -/
def exOut1 : RowOut :=
  { fields := [("feed", .ref 7), ("trip_id", .str "T1")],
    m2ms := [("services", .ref 0)],
    store := { records := [],
               related := [{ id := 0, target := 2, feed := 7,
                             lookupField := "service_id", lookup := "A" }],
               nextRelId := 1 } }

/-- The column-loop output of `exRowT1B` after `exRowT1A` committed. -/
def exOut2 : RowOut :=
  { fields := [("feed", .ref 7), ("trip_id", .str "T1")],
    m2ms := [("services", .ref 1)],
    store := { records := [{ fields := [("feed", .ref 7), ("trip_id", .str "T1")],
                             m2m := [("services", [0])] }],
               related := [{ id := 0, target := 2, feed := 7,
                             lookupField := "service_id", lookup := "A" },
                           { id := 1, target := 2, feed := 7,
                             lookupField := "service_id", lookup := "B" }],
               nextRelId := 2 } }

/-- A required (non-blank) date field. -/
def exDate : Field :=
  { kind := .date, null := false, blank := false, hasDefault := false, default := .null }

/-- A model whose mapped columns are all required scalars. -/
def exReqModel : GtfsModel :=
  { columnMap := [("stop_code", "code"), ("start_date", "day")],
    registry := [("code", exChar), ("day", exDate)],
    relToFeed := "feed" }

def exReqSpecs : List ColSpec :=
  [{ csvName := "stop_code", fieldName := "code", field := exChar, relName := none },
   { csvName := "start_date", fieldName := "day", field := exDate, relName := none }]

/-- A record populating only the required columns. -/
def exRecS1 : Record :=
  { fields := [("feed", .ref 5), ("code", .str "S1"), ("day", .date 2024 2 29)], m2m := [] }

/-! ## General helper lemmas -/

theorem char_le_iff (a b : Char) : a ≤ b ↔ a.toNat ≤ b.toNat := Iff.rfl

theorem char_eq_iff (a b : Char) : a = b ↔ a.toNat = b.toNat := by
  constructor
  · rintro rfl; rfl
  · intro h; apply Char.ext; exact UInt32.ext_iff.mpr h

theorem char_isDigit_iff (c : Char) : c.isDigit = true ↔ 48 ≤ c.toNat ∧ c.toNat ≤ 57 := by
  simp only [Char.isDigit, Bool.and_eq_true, decide_eq_true_eq]
  exact Iff.rfl

/-- `fieldConvert` can change only the related part of the store. -/
theorem fieldConvert_records (f : Field) (relName : Option String) (feed : Nat)
    (st : Store) (c : Cell) (v : Value) (st1 : Store)
    (h : fieldConvert f relName feed st c = .ok (v, st1)) :
    st1.records = st.records := by
  unfold fieldConvert at h
  split at h
  · unfold dateConvert at h
    rcases c with _ | s
    · simp [Except.map] at h
    · rcases hs : strptimeYmd s.data with _ | ymd <;> simp [hs, Except.map] at h
      exact h.2 ▸ rfl
  · split at h
    · cases h; rfl
    · split at h
      · cases h; rfl
      · split at h
        · unfold instanceConvert at h
          split at h
          · rcases relName with _ | rn
            · cases h
            · simp only [Except.ok.injEq, Prod.mk.injEq] at h
              rcases h with ⟨-, rfl⟩
              unfold getOrCreateRel
              split <;> rfl
          · cases h; rfl
        · split at h
          · cases h; rfl
          · split at h <;> (cases h; rfl)

/-- The column loop never touches the main records: converters only
find-or-create related records. -/
theorem processColumns_records (specs : List ColSpec) (feed : Nat) :
    ∀ (row : Row) (acc : RowOut) (out : RowOut),
      processColumns specs feed row acc = .ok out →
      out.store.records = acc.store.records := by
  intro row
  induction row with
  | nil => intro acc out h; cases h; rfl
  | cons p rest ih =>
      intro acc out h
      rw [processColumns] at h
      rcases hf : findSpec specs p.1 with _ | sp <;> simp only [hf] at h
      · by_cases ht : truthy p.2 = true
        · rw [if_pos ht] at h; cases h
        · rw [if_neg ht] at h
          exact ih acc out h
      · rcases hc : fieldConvert sp.field sp.relName feed acc.store p.2 with e | ⟨v, st1⟩ <;>
          simp only [hc] at h
        · cases h
        · have hrec := fieldConvert_records _ _ _ _ _ _ _ hc
          by_cases hm : sp.isM2M = true
          · rw [if_pos hm] at h
            exact (ih _ _ h).trans hrec
          · rw [if_neg hm] at h
            exact (ih _ _ h).trans hrec

/-- Likewise on the error path: the store returned with an exception holds
the original records. -/
theorem processColumns_error_records (specs : List ColSpec) (feed : Nat) :
    ∀ (row : Row) (acc : RowOut) (e : ImpErr) (st1 : Store),
      processColumns specs feed row acc = .error (e, st1) →
      st1.records = acc.store.records := by
  intro row
  induction row with
  | nil => intro acc e st1 h; cases h
  | cons p rest ih =>
      intro acc e st1 h
      rw [processColumns] at h
      rcases hf : findSpec specs p.1 with _ | sp <;> simp only [hf] at h
      · by_cases ht : truthy p.2 = true
        · rw [if_pos ht] at h; cases h; rfl
        · rw [if_neg ht] at h
          exact ih acc e st1 h
      · rcases hc : fieldConvert sp.field sp.relName feed acc.store p.2 with e2 | ⟨v, st2⟩ <;>
          simp only [hc] at h
        · cases h; rfl
        · have hrec := fieldConvert_records _ _ _ _ _ _ _ hc
          by_cases hm : sp.isM2M = true
          · rw [if_pos hm] at h
            exact (ih _ _ _ h).trans hrec
          · rw [if_neg hm] at h
            exact (ih _ _ _ h).trans hrec

/-! ## C9: empty export -/

/-- C9: exporting an empty record collection produces no output at all
(`export_txt` returns before building any column list), for every model
and store. -/
theorem c9_empty_export (m : GtfsModel) (st : Store) :
    exportTxt m st [] = .ok none := rfl

/-! ## C7: empty-text conversion by field class -/

/-- C7: on the spec's converter taxonomy, empty raw text converts as
follows.  A (non-nullable) string-like field yields the empty string,
never null; a nullable non-relation (and non-date, non-boolean,
non-string) field yields null, with non-empty text passed through
unconverted; a defaulted, not null-capable such field yields the field's
declared default, with non-empty text passed through. -/
theorem c7_empty_text_conversion (f : Field) (relName : Option String)
    (feed : Nat) (st : Store) :
    (f.kind = .char → f.null = false →
      fieldConvert f relName feed st (some "") = .ok (.str "", st)) ∧
    (f.kind = .plain → f.null = true →
      fieldConvert f relName feed st (some "") = .ok (.null, st) ∧
      ∀ s : String, s ≠ "" →
        fieldConvert f relName feed st (some s) = .ok (.str s, st)) ∧
    (f.kind = .plain → f.null = false → f.hasDefault = true →
      fieldConvert f relName feed st (some "") = .ok (f.default, st) ∧
      ∀ s : String, s ≠ "" →
        fieldConvert f relName feed st (some s) = .ok (.str s, st)) := by
  refine ⟨?_, ?_, ?_⟩
  · intro hk _
    simp [fieldConvert, hk, charConvert, truthy]
  · intro hk hn
    constructor
    · simp [fieldConvert, hk, FieldKind.hasRel, hn, nullConvert, truthy]
    · intro s hs
      simp [fieldConvert, hk, FieldKind.hasRel, hn, nullConvert, truthy, hs, Option.getD]
  · intro hk hn hd
    constructor
    · simp [fieldConvert, hk, FieldKind.hasRel, hn, hd, defaultConvert]
    · intro s hs
      simp [fieldConvert, hk, FieldKind.hasRel, hn, hd, defaultConvert, hs, Option.getD]

theorem c7_empty_text_conversion_witness :
    fieldConvert exChar none 0 emptyStore (some "") = .ok (.str "", emptyStore) ∧
    fieldConvert exPlainNull none 0 emptyStore (some "") = .ok (.null, emptyStore) ∧
    fieldConvert exPlainNull none 0 emptyStore (some "x") = .ok (.str "x", emptyStore) ∧
    fieldConvert exPlainDefault none 0 emptyStore (some "") = .ok (.str "7", emptyStore) ∧
    fieldConvert exPlainDefault none 0 emptyStore (some "x") = .ok (.str "x", emptyStore) :=
  ⟨(c7_empty_text_conversion exChar none 0 emptyStore).1 rfl rfl,
   ((c7_empty_text_conversion exPlainNull none 0 emptyStore).2.1 rfl rfl).1,
   ((c7_empty_text_conversion exPlainNull none 0 emptyStore).2.1 rfl rfl).2 "x" (by decide),
   ((c7_empty_text_conversion exPlainDefault none 0 emptyStore).2.2 rfl rfl rfl).1,
   ((c7_empty_text_conversion exPlainDefault none 0 emptyStore).2.2 rfl rfl rfl).2 "x" (by decide)⟩

/-! ## C10: converter dispatch priority -/

/-- C10: the converter chain tests field kinds in the fixed order date,
boolean, string-like, relation, nullable, defaulted, pass-through, and
the first match wins; in particular a string-like field that is also
nullable or defaulted converts empty text to the empty string — the
string-like rule, never null and never the field's default. -/
theorem c10_dispatch_priority (f : Field) (relName : Option String) (feed : Nat)
    (st : Store) (c : Cell) :
    (f.kind = .date →
      fieldConvert f relName feed st c = (dateConvert c).map (fun v => (v, st))) ∧
    (f.kind = .boolean → fieldConvert f relName feed st c = .ok (boolConvert c, st)) ∧
    (f.kind = .char → fieldConvert f relName feed st c = .ok (charConvert c, st)) ∧
    (f.kind.hasRel = true →
      fieldConvert f relName feed st c = instanceConvert f.kind.relTarget feed relName st c) ∧
    (f.kind = .plain → f.null = true →
      fieldConvert f relName feed st c = .ok (nullConvert c, st)) ∧
    (f.kind = .plain → f.null = false → f.hasDefault = true →
      fieldConvert f relName feed st c = .ok (defaultConvert f c, st)) ∧
    (f.kind = .plain → f.null = false → f.hasDefault = false →
      fieldConvert f relName feed st c = .ok (noConvert c, st)) ∧
    (f.kind = .char → f.null = true ∨ f.hasDefault = true →
      fieldConvert f relName feed st (some "") = .ok (.str "", st)) := by
  refine ⟨?_, ?_, ?_, ?_, ?_, ?_, ?_, ?_⟩
  · intro hk; simp [fieldConvert, hk]
  · intro hk; simp [fieldConvert, hk]
  · intro hk; simp [fieldConvert, hk]
  · intro hk
    rcases hv : f.kind with _ | _ | _ | t | t | _ <;>
      simp [hv, FieldKind.hasRel] at hk ⊢ <;>
      simp [fieldConvert, hv, FieldKind.hasRel]
  · intro hk hn; simp [fieldConvert, hk, FieldKind.hasRel, hn]
  · intro hk hn hd; simp [fieldConvert, hk, FieldKind.hasRel, hn, hd]
  · intro hk hn hd; simp [fieldConvert, hk, FieldKind.hasRel, hn, hd]
  · intro hk _; simp [fieldConvert, hk, charConvert, truthy]

theorem c10_dispatch_priority_witness :
    fieldConvert exDateNullDefault none 0 emptyStore (some "") = .error .parseError ∧
    fieldConvert exCharNullDefault none 0 emptyStore (some "") = .ok (.str "", emptyStore) :=
  ⟨((c10_dispatch_priority exDateNullDefault none 0 emptyStore (some "")).1 rfl).trans rfl,
   (c10_dispatch_priority exCharNullDefault none 0 emptyStore (some "")).2.2.2.2.2.2.2
     rfl (Or.inl rfl)⟩

/-! ## C6: single-relation conversion -/

/-- C6: for a single-relation column, empty (falsy) text converts to a
null reference; non-empty text converts to a reference to the related
record of the target model, in the same feed, whose designated lookup
field equals the text — returning the existing record when one matches,
and creating one (fresh id, appended to the related table) otherwise. -/
theorem c6_relation_convert (f : Field) (t feed : Nat) (rn : String) (st : Store)
    (hk : f.kind = .fk t) :
    (∀ c : Cell, truthy c = false →
      fieldConvert f (some rn) feed st c = .ok (.null, st)) ∧
    (∀ s : String, s ≠ "" →
      (∀ r : RelRecord, findRel st t feed rn s = some r →
        fieldConvert f (some rn) feed st (some s) = .ok (.ref r.id, st) ∧
          r.target = t ∧ r.feed = feed ∧ r.lookupField = rn ∧ r.lookup = s) ∧
      (findRel st t feed rn s = none →
        fieldConvert f (some rn) feed st (some s) =
          .ok (.ref st.nextRelId,
               { st with
                 related := st.related ++
                   [{ id := st.nextRelId, target := t, feed := feed,
                      lookupField := rn, lookup := s }],
                 nextRelId := st.nextRelId + 1 }))) := by
  have hconv : ∀ c : Cell,
      fieldConvert f (some rn) feed st c = instanceConvert t feed (some rn) st c := by
    intro c
    simp [fieldConvert, hk, FieldKind.hasRel, FieldKind.relTarget]
  constructor
  · intro c hc
    rw [hconv, instanceConvert, hc]
    simp
  · intro s hs
    have ht : truthy (some s) = true := by simp [truthy, hs]
    constructor
    · intro r hr
      have hp := List.find?_some hr
      simp only [decide_eq_true_eq] at hp
      refine ⟨?_, hp.1, hp.2.1, hp.2.2.1, hp.2.2.2⟩
      rw [hconv, instanceConvert, ht]
      simp [getOrCreateRel, hr, Option.getD]
    · intro hr
      rw [hconv, instanceConvert, ht]
      simp [getOrCreateRel, hr, Option.getD]

theorem c6_relation_convert_witness :
    fieldConvert exFk (some "zone_id") 7 exStoreZ (some "") = .ok (.null, exStoreZ) ∧
    fieldConvert exFk (some "zone_id") 7 exStoreZ (some "Z1") = .ok (.ref 0, exStoreZ) ∧
    fieldConvert exFk (some "zone_id") 7 exStoreZ (some "Z2") =
      .ok (.ref 1,
           { exStoreZ with
             related := exStoreZ.related ++
               [{ id := 1, target := 1, feed := 7, lookupField := "zone_id", lookup := "Z2" }],
             nextRelId := 2 }) :=
  ⟨(c6_relation_convert exFk 1 7 "zone_id" exStoreZ rfl).1 (some "") (by decide),
   (((c6_relation_convert exFk 1 7 "zone_id" exStoreZ rfl).2 "Z1" (by decide)).1
     { id := 0, target := 1, feed := 7, lookupField := "zone_id", lookup := "Z1" }
     (by decide)).1,
   ((c6_relation_convert exFk 1 7 "zone_id" exStoreZ rfl).2 "Z2" (by decide)).2 (by decide)⟩

/-! ## C2: optional-column selection on export -/

theorem includeCol_iff (records : List Record) (sp : ColSpec) :
    includeCol records sp = true ↔
      (optionalField sp.field = true →
        ∃ r ∈ records, lookupField r sp.fieldName ≠ some (blankValue sp.field)) := by
  by_cases h : optionalField sp.field = true
  · simp [includeCol, h, List.any_eq_true]
  · simp [includeCol, h]

/-- C2: for a non-empty record set, a column appears in the export exactly
when its column-map entry is either non-optional (not blank-capable, or
carrying a default), or some record holds a non-blank value for its field
(the `exclude(blank).exists()` probe). -/
theorem c2_optional_columns (m : GtfsModel) (st : Store) (records : List Record)
    (specs : List ColSpec)
    (hspecs : buildSpecs m = some specs)
    (hne : records ≠ []) :
    ∃ csv : Csv, exportTxt m st records = .ok (some csv) ∧
      ∀ colName : String,
        colName ∈ csv.header ↔
          ∃ sp ∈ specs, sp.csvName = colName ∧
            (optionalField sp.field = true →
              ∃ r ∈ records, lookupField r sp.fieldName ≠ some (blankValue sp.field)) := by
  have hemp : records.isEmpty = false := by
    cases records with
    | nil => exact absurd rfl hne
    | cons a l => rfl
  refine ⟨createCsv st records (exportColumns specs records), ?_, ?_⟩
  · rw [exportTxt, hemp, hspecs]
    rfl
  · intro colName
    simp only [createCsv, exportColumns, List.mem_map, List.mem_filter]
    constructor
    · rintro ⟨sp, ⟨hmem, hinc⟩, rfl⟩
      exact ⟨sp, hmem, rfl, (includeCol_iff records sp).mp hinc⟩
    · rintro ⟨sp, hmem, rfl, hprobe⟩
      exact ⟨sp, ⟨hmem, (includeCol_iff records sp).mpr hprobe⟩, rfl⟩

theorem c2_optional_columns_witness :
    ∃ csv : Csv, exportTxt exStopModel exStoreZ [exR1] = .ok (some csv) ∧
      ∀ colName : String,
        colName ∈ csv.header ↔
          ∃ sp ∈ exStopSpecs, sp.csvName = colName ∧
            (optionalField sp.field = true →
              ∃ r ∈ [exR1], lookupField r sp.fieldName ≠ some (blankValue sp.field)) :=
  c2_optional_columns exStopModel exStoreZ [exR1] exStopSpecs (by decide) (by decide)

/-! ## C3: unexpected columns -/

/-- `fieldConvert` fails or succeeds independently of the store. -/
theorem fieldConvert_ok_any_store (f : Field) (relName : Option String) (feed : Nat)
    (c : Cell) (st : Store) (vs : Value × Store)
    (h : fieldConvert f relName feed st c = .ok vs) (st2 : Store) :
    ∃ vs2, fieldConvert f relName feed st2 c = .ok vs2 := by
  unfold fieldConvert at h ⊢
  by_cases h1 : f.kind = .date
  · rw [if_pos h1] at h ⊢
    rcases hd : dateConvert c with e | v
    · rw [hd] at h
      exact absurd h (by simp [Except.map])
    · exact ⟨_, rfl⟩
  · rw [if_neg h1] at h ⊢
    by_cases h2 : f.kind = .boolean
    · rw [if_pos h2]
      exact ⟨_, rfl⟩
    · rw [if_neg h2] at h ⊢
      by_cases h3 : f.kind = .char
      · rw [if_pos h3]
        exact ⟨_, rfl⟩
      · rw [if_neg h3] at h ⊢
        by_cases h4 : f.kind.hasRel = true
        · rw [if_pos h4] at h ⊢
          unfold instanceConvert at h ⊢
          by_cases h5 : truthy c = true
          · rw [if_pos h5] at h ⊢
            rcases relName with _ | rn
            · cases h
            · exact ⟨_, rfl⟩
          · rw [if_neg h5]
            exact ⟨_, rfl⟩
        · rw [if_neg h4]
          by_cases h6 : f.null = true
          · rw [if_pos h6]
            exact ⟨_, rfl⟩
          · rw [if_neg h6]
            by_cases h7 : f.hasDefault = true
            · rw [if_pos h7]
              exact ⟨_, rfl⟩
            · rw [if_neg h7]
              exact ⟨_, rfl⟩

/-- A row containing an undeclared truthy column makes the column loop
raise the unexpected-column error, provided the declared cells convert. -/
theorem processColumns_unexpected (specs : List ColSpec) (feed : Nat) :
    ∀ (row : Row) (acc : RowOut),
      (∃ p ∈ row, findSpec specs p.1 = none ∧ truthy p.2 = true) →
      (∀ p ∈ row, ∀ sp, findSpec specs p.1 = some sp →
        ∀ stx : Store, ∃ vs, fieldConvert sp.field sp.relName feed stx p.2 = .ok vs) →
      ∃ colName st1,
        processColumns specs feed row acc = .error (.unexpectedColumn colName, st1) := by
  intro row
  induction row with
  | nil => rintro acc ⟨p, hp, -⟩ -; cases hp
  | cons p rest ih =>
      rintro acc ⟨q, hq, hqf, hqt⟩ hconv
      rcases hf : findSpec specs p.1 with _ | sp
      · by_cases ht : truthy p.2 = true
        · refine ⟨p.1, acc.store, ?_⟩
          rw [processColumns]
          simp [hf, ht]
        · have hqrest : q ∈ rest := by
            rcases List.mem_cons.mp hq with rfl | h2
            · exact absurd hqt ht
            · exact h2
          obtain ⟨c1, st1, hrec⟩ :=
            ih acc ⟨q, hqrest, hqf, hqt⟩ (fun p2 h2 => hconv p2 (List.mem_cons_of_mem _ h2))
          refine ⟨c1, st1, ?_⟩
          rw [processColumns]
          simp only [hf, ht]
          simpa using hrec
      · obtain ⟨⟨v, stv⟩, hc⟩ := hconv p (List.mem_cons_self _ _) sp hf acc.store
        have hqrest : q ∈ rest := by
          rcases List.mem_cons.mp hq with rfl | h2
          · rw [hf] at hqf; cases hqf
          · exact h2
        by_cases hm : sp.isM2M = true
        · obtain ⟨c1, st1, hrec⟩ :=
            ih { acc with m2ms := setField acc.m2ms sp.fieldName v, store := stv }
               ⟨q, hqrest, hqf, hqt⟩ (fun p2 h2 => hconv p2 (List.mem_cons_of_mem _ h2))
          refine ⟨c1, st1, ?_⟩
          rw [processColumns]
          simp only [hf, hc, hm, if_pos]
          exact hrec
        · obtain ⟨c1, st1, hrec⟩ :=
            ih { acc with fields := setField acc.fields sp.fieldName v, store := stv }
               ⟨q, hqrest, hqf, hqt⟩ (fun p2 h2 => hconv p2 (List.mem_cons_of_mem _ h2))
          refine ⟨c1, st1, ?_⟩
          rw [processColumns]
          simp only [hf, hc]
          rw [if_neg hm]
          exact hrec

/-- Undeclared falsy columns are skipped: the column loop behaves as if the
row only contained its declared columns. -/
theorem processColumns_tolerates (specs : List ColSpec) (feed : Nat) :
    ∀ (row : Row) (acc : RowOut),
      (∀ p ∈ row, findSpec specs p.1 = none → truthy p.2 = false) →
      processColumns specs feed row acc =
        processColumns specs feed (row.filter (fun p => (findSpec specs p.1).isSome)) acc := by
  intro row
  induction row with
  | nil => intro acc _; rfl
  | cons p rest ih =>
      intro acc hfal
      rcases hf : findSpec specs p.1 with _ | sp
      · have ht : truthy p.2 = false := hfal p (List.mem_cons_self _ _) hf
        have hfil : (p :: rest).filter (fun p => (findSpec specs p.1).isSome) =
            rest.filter (fun p => (findSpec specs p.1).isSome) := by
          simp [List.filter, hf]
        rw [hfil, processColumns]
        simp only [hf, ht]
        simp only [Bool.false_eq_true, if_false]
        exact ih acc (fun p2 h2 => hfal p2 (List.mem_cons_of_mem _ h2))
      · have hfil : (p :: rest).filter (fun p => (findSpec specs p.1).isSome) =
            p :: rest.filter (fun p => (findSpec specs p.1).isSome) := by
          simp [List.filter, hf]
        rw [hfil, processColumns, processColumns]
        simp only [hf]
        rcases hc : fieldConvert sp.field sp.relName feed acc.store p.2 with e | ⟨v, stv⟩
        · rfl
        · by_cases hm : sp.isM2M = true
          · simp only [if_pos hm]
            exact ih _ (fun p2 h2 => hfal p2 (List.mem_cons_of_mem _ h2))
          · simp only [if_neg hm]
            exact ih _ (fun p2 h2 => hfal p2 (List.mem_cons_of_mem _ h2))

theorem importRows_cons (m : GtfsModel) (specs : List ColSpec) (feed : Nat)
    (st : Store) (row : Row) (rest : List Row) :
    importRows m specs feed st (row :: rest) =
      match importRow m specs feed st row with
      | (st1, none) => importRows m specs feed st1 rest
      | (st1, some e) => (st1, some e) := rfl

/-- C3: a row holding a non-empty value under an undeclared column makes
`import_txt` raise the unexpected-column `ValueError`, and no record for
that row is created (the main records are untouched); a row whose
undeclared columns are all empty or absent imports exactly as the row
restricted to its declared columns. -/
theorem c3_unexpected_column (m : GtfsModel) (feed : Nat) (st : Store) (row : Row)
    (specs : List ColSpec)
    (hspecs : buildSpecs m = some specs)
    (hconv : ∀ p ∈ row, ∀ sp, findSpec specs p.1 = some sp →
      ∀ stx : Store, ∃ vs, fieldConvert sp.field sp.relName feed stx p.2 = .ok vs) :
    ((∃ p ∈ row, findSpec specs p.1 = none ∧ truthy p.2 = true) →
      ∃ colName st1, importTxt m feed st [row] = (st1, some (.unexpectedColumn colName)) ∧
        st1.records = st.records) ∧
    ((∀ p ∈ row, findSpec specs p.1 = none → truthy p.2 = false) →
      importTxt m feed st [row] =
        importTxt m feed st [row.filter (fun p => (findSpec specs p.1).isSome)]) := by
  constructor
  · intro hex
    obtain ⟨colName, st1, hrec⟩ :=
      processColumns_unexpected specs feed row
        { fields := initFields m feed, m2ms := [], store := st } hex hconv
    refine ⟨colName, st1, ?_, ?_⟩
    · have himp : importRow m specs feed st row = (st1, some (.unexpectedColumn colName)) := by
        unfold importRow
        rw [hrec]
      simp only [importTxt, hspecs, importRows_cons, himp]
    · exact processColumns_error_records specs feed row _ _ _ hrec
  · intro hfal
    have himp : importRow m specs feed st row =
        importRow m specs feed st (row.filter (fun p => (findSpec specs p.1).isSome)) := by
      unfold importRow
      rw [processColumns_tolerates specs feed row _ hfal]
    simp only [importTxt, hspecs, importRows_cons, himp]

theorem c3_unexpected_column_witness :
    (∃ colName st1,
      importTxt exStopModel 7 exStoreZ [exRowBad] = (st1, some (.unexpectedColumn colName)) ∧
        st1.records = exStoreZ.records) ∧
    importTxt exStopModel 7 exStoreZ [exRowTolerated] =
      importTxt exStopModel 7 exStoreZ
        [exRowTolerated.filter (fun p => (findSpec exStopSpecs p.1).isSome)] := by
  have hcode : findSpec exStopSpecs "stop_code" =
      some { csvName := "stop_code", fieldName := "code", field := exChar, relName := none } := by
    decide
  have hzone : findSpec exStopSpecs "zone_id" =
      some { csvName := "zone_id", fieldName := "zone", field := exFk,
             relName := some "zone_id" } := by
    decide
  have hbogus : findSpec exStopSpecs "bogus" = none := by decide
  have hconv1 : ∀ p ∈ exRowBad, ∀ sp, findSpec exStopSpecs p.1 = some sp →
      ∀ stx : Store, ∃ vs, fieldConvert sp.field sp.relName 7 stx p.2 = .ok vs := by
    intro p hp
    rcases List.mem_cons.mp hp with rfl | hp
    · intro sp hsp stx
      cases hcode.symm.trans hsp
      exact ⟨_, rfl⟩
    rcases List.mem_cons.mp hp with rfl | hp
    · intro sp hsp stx
      cases hbogus.symm.trans hsp
    rcases List.mem_cons.mp hp with rfl | hp
    · intro sp hsp stx
      cases hzone.symm.trans hsp
      exact ⟨_, rfl⟩
    cases hp
  have hconv2 : ∀ p ∈ exRowTolerated, ∀ sp, findSpec exStopSpecs p.1 = some sp →
      ∀ stx : Store, ∃ vs, fieldConvert sp.field sp.relName 7 stx p.2 = .ok vs := by
    intro p hp
    rcases List.mem_cons.mp hp with rfl | hp
    · intro sp hsp stx
      cases hcode.symm.trans hsp
      exact ⟨_, rfl⟩
    rcases List.mem_cons.mp hp with rfl | hp
    · intro sp hsp stx
      cases hbogus.symm.trans hsp
    rcases List.mem_cons.mp hp with rfl | hp
    · intro sp hsp stx
      cases hzone.symm.trans hsp
      exact ⟨_, rfl⟩
    cases hp
  constructor
  · exact (c3_unexpected_column exStopModel 7 exStoreZ exRowBad exStopSpecs (by decide)
      hconv1).1 ⟨("bogus", some "x"), by decide, by decide, by decide⟩
  · exact (c3_unexpected_column exStopModel 7 exStoreZ exRowTolerated exStopSpecs (by decide)
      hconv2).2 (by decide)

/-! ## C4: rows without m2m contributions create unconditionally -/

/-- C4: a row that produced no many-to-many contributions takes the
unconditional `create` branch, appending a fresh record built from its
converted single-valued fields; two such rows with identical converted
fields append two distinct records — no deduplication. -/
theorem c4_unconditional_create (m : GtfsModel) (specs : List ColSpec) (feed : Nat)
    (st : Store) (row1 row2 : Row) (out1 out2 : RowOut)
    (hspecs : buildSpecs m = some specs)
    (h1 : processColumns specs feed row1
        { fields := initFields m feed, m2ms := [], store := st } = .ok out1)
    (hm1 : out1.m2ms = [])
    (h2 : processColumns specs feed row2
        { fields := initFields m feed, m2ms := [],
          store := { out1.store with
                     records := out1.store.records ++ [{ fields := out1.fields, m2m := [] }] } } =
      .ok out2)
    (hm2 : out2.m2ms = [])
    (heq : out2.fields = out1.fields) :
    importTxt m feed st [row1] =
      ({ out1.store with
         records := out1.store.records ++ [{ fields := out1.fields, m2m := [] }] }, none) ∧
    importTxt m feed st [row1, row2] =
      ({ out2.store with
         records := out1.store.records ++
           [{ fields := out1.fields, m2m := [] }, { fields := out1.fields, m2m := [] }] },
       none) := by
  have himp1 : importRow m specs feed st row1 =
      ({ out1.store with
         records := out1.store.records ++ [{ fields := out1.fields, m2m := [] }] }, none) := by
    unfold importRow
    rw [h1]
    simp [hm1]
  have himp2 : importRow m specs feed
      { out1.store with
        records := out1.store.records ++ [{ fields := out1.fields, m2m := [] }] } row2 =
      ({ out2.store with records := out2.store.records ++ [{ fields := out1.fields, m2m := [] }] },
       none) := by
    unfold importRow
    rw [h2]
    simp [hm2, heq]
  have hrec2 : out2.store.records =
      out1.store.records ++ [{ fields := out1.fields, m2m := [] }] :=
    processColumns_records specs feed row2 _ _ h2
  constructor
  · simp only [importTxt, hspecs, importRows_cons, himp1, importRows]
  · simp only [importTxt, hspecs, importRows_cons, himp1, himp2, importRows]
    rw [hrec2]
    simp

theorem c4_unconditional_create_witness :
    importTxt exStopModel 7 emptyStore [exRowS1] =
      ({ records := [{ fields := [("feed", .ref 7), ("code", .str "S1")], m2m := [] }],
         related := [], nextRelId := 0 }, none) ∧
    importTxt exStopModel 7 emptyStore [exRowS1, exRowS1] =
      ({ records := [{ fields := [("feed", .ref 7), ("code", .str "S1")], m2m := [] },
                     { fields := [("feed", .ref 7), ("code", .str "S1")], m2m := [] }],
         related := [], nextRelId := 0 }, none) := by
  have h := c4_unconditional_create exStopModel exStopSpecs 7 emptyStore exRowS1 exRowS1
    { fields := [("feed", .ref 7), ("code", .str "S1")], m2ms := [], store := emptyStore }
    { fields := [("feed", .ref 7), ("code", .str "S1")], m2ms := [],
      store := { records := [{ fields := [("feed", .ref 7), ("code", .str "S1")], m2m := [] }],
                 related := [], nextRelId := 0 } }
    rfl rfl rfl rfl rfl rfl
  exact h

/-! ## C8: the date parser

Inversion and construction lemmas for `strptimeYmd`, leading to the
characterization of which strings `date_convert` accepts.
-/

theorem toNatC0 : ('0' : Char).toNat = 48 := rfl

theorem toNatC1 : ('1' : Char).toNat = 49 := rfl

theorem toNatC2 : ('2' : Char).toNat = 50 := rfl

theorem toNatC3 : ('3' : Char).toNat = 51 := rfl

theorem toNatC9 : ('9' : Char).toNat = 57 := rfl

theorem dayFull_eq_some (l : List Char) (d : Nat) (h : dayFull l = some d) :
    (∃ c, l = [c] ∧ '1' ≤ c ∧ c ≤ '9' ∧ d = digitVal c) ∨
    (∃ c1 c2, l = [c1, c2] ∧
      ((c1 = '3' ∧ '0' ≤ c2 ∧ c2 ≤ '1' ∧ d = 30 + digitVal c2) ∨
       ((c1 = '1' ∨ c1 = '2') ∧ c2.isDigit = true ∧ d = 10 * digitVal c1 + digitVal c2) ∨
       (c1 = '0' ∧ '1' ≤ c2 ∧ c2 ≤ '9' ∧ d = digitVal c2) ∨
       (c1 = ' ' ∧ '1' ≤ c2 ∧ c2 ≤ '9' ∧ d = digitVal c2))) := by
  rcases l with _ | ⟨c, _ | ⟨c2, _ | ⟨c3, t⟩⟩⟩
  · cases h
  · simp only [dayFull] at h
    split_ifs at h with h1
    · cases h
      exact Or.inl ⟨c, rfl, h1.1, h1.2, rfl⟩
  · simp only [dayFull] at h
    split_ifs at h with h1 h2 h3 h4
    · cases h
      exact Or.inr ⟨c, c2, rfl, Or.inl ⟨h1.1, h1.2.1, h1.2.2, rfl⟩⟩
    · cases h
      exact Or.inr ⟨c, c2, rfl, Or.inr (Or.inl ⟨h2.1, h2.2, rfl⟩)⟩
    · cases h
      exact Or.inr ⟨c, c2, rfl, Or.inr (Or.inr (Or.inl ⟨h3.1, h3.2.1, h3.2.2, rfl⟩))⟩
    · cases h
      exact Or.inr ⟨c, c2, rfl, Or.inr (Or.inr (Or.inr ⟨h4.1, h4.2.1, h4.2.2, rfl⟩))⟩
  · cases h

theorem mdAlt1_eq_some (cs : List Char) (x : Nat × Nat) (h : mdAlt1 cs = some x) :
    ∃ c1 c2 rest d, cs = c1 :: c2 :: rest ∧ c1 = '1' ∧ '0' ≤ c2 ∧ c2 ≤ '2' ∧
      dayFull rest = some d ∧ x = (10 + digitVal c2, d) := by
  rcases cs with _ | ⟨c1, _ | ⟨c2, rest⟩⟩
  · cases h
  · cases h
  · simp only [mdAlt1] at h
    split_ifs at h with h1
    · rcases hd : dayFull rest with _ | d
      · rw [hd] at h; cases h
      · rw [hd] at h
        cases h
        exact ⟨c1, c2, rest, d, rfl, h1.1, h1.2.1, h1.2.2, hd, rfl⟩

theorem mdAlt2_eq_some (cs : List Char) (x : Nat × Nat) (h : mdAlt2 cs = some x) :
    ∃ c1 c2 rest d, cs = c1 :: c2 :: rest ∧ c1 = '0' ∧ '1' ≤ c2 ∧ c2 ≤ '9' ∧
      dayFull rest = some d ∧ x = (digitVal c2, d) := by
  rcases cs with _ | ⟨c1, _ | ⟨c2, rest⟩⟩
  · cases h
  · cases h
  · simp only [mdAlt2] at h
    split_ifs at h with h1
    · rcases hd : dayFull rest with _ | d
      · rw [hd] at h; cases h
      · rw [hd] at h
        cases h
        exact ⟨c1, c2, rest, d, rfl, h1.1, h1.2.1, h1.2.2, hd, rfl⟩

theorem mdAlt3_eq_some (cs : List Char) (x : Nat × Nat) (h : mdAlt3 cs = some x) :
    ∃ c1 rest d, cs = c1 :: rest ∧ '1' ≤ c1 ∧ c1 ≤ '9' ∧
      dayFull rest = some d ∧ x = (digitVal c1, d) := by
  rcases cs with _ | ⟨c1, rest⟩
  · cases h
  · simp only [mdAlt3] at h
    split_ifs at h with h1
    · rcases hd : dayFull rest with _ | d
      · rw [hd] at h; cases h
      · rw [hd] at h
        cases h
        exact ⟨c1, rest, d, rfl, h1.1, h1.2, hd, rfl⟩

theorem monthDay_cases (cs : List Char) (x : Nat × Nat) (h : monthDay cs = some x) :
    mdAlt1 cs = some x ∨ mdAlt2 cs = some x ∨ mdAlt3 cs = some x := by
  unfold monthDay at h
  rcases h1 : mdAlt1 cs with _ | y
  · rcases h2 : mdAlt2 cs with _ | y
    · rw [h1, h2] at h
      simp [Option.orElse] at h
      exact Or.inr (Or.inr h)
    · rw [h1, h2] at h
      simp [Option.orElse] at h
      exact Or.inr (Or.inl (congrArg some h))
  · rw [h1] at h
    simp [Option.orElse] at h
    exact Or.inl (congrArg some h)

theorem dayFull_length (l : List Char) (d : Nat) (h : dayFull l = some d) :
    l.length = 1 ∨ l.length = 2 := by
  rcases dayFull_eq_some l d h with ⟨c, rfl, -⟩ | ⟨c1, c2, rfl, -⟩
  · exact Or.inl rfl
  · exact Or.inr rfl

theorem strptimeYmd_eq_some (cs : List Char) (x : Nat × Nat × Nat)
    (h : strptimeYmd cs = some x) :
    ∃ y1 y2 y3 y4 rest m d, cs = y1 :: y2 :: y3 :: y4 :: rest ∧
      y1.isDigit = true ∧ y2.isDigit = true ∧ y3.isDigit = true ∧ y4.isDigit = true ∧
      monthDay rest = some (m, d) ∧
      1 ≤ ymdDigits [y1, y2, y3, y4] ∧ d ≤ daysInMonth (ymdDigits [y1, y2, y3, y4]) m ∧
      x = (ymdDigits [y1, y2, y3, y4], m, d) := by
  rcases cs with _ | ⟨y1, _ | ⟨y2, _ | ⟨y3, _ | ⟨y4, rest⟩⟩⟩⟩
  · cases h
  · cases h
  · cases h
  · cases h
  · simp only [strptimeYmd] at h
    split_ifs at h with h1
    · rcases hm : monthDay rest with _ | ⟨m, d⟩
      · rw [hm] at h; cases h
      · rw [hm] at h
        dsimp only at h
        have hy : ymdDigits [y1, y2, y3, y4] =
            1000 * digitVal y1 + 100 * digitVal y2 + 10 * digitVal y3 + digitVal y4 := by
          simp only [ymdDigits, List.foldl]
          ring
        split_ifs at h with h2
        · cases h
          refine ⟨y1, y2, y3, y4, rest, m, d, rfl, h1.1, h1.2.1, h1.2.2.1, h1.2.2.2,
            hm, ?_, ?_, ?_⟩
          · rw [hy]; exact h2.1
          · rw [hy]; exact h2.2
          · rw [hy]

theorem strptimeYmd_length (cs : List Char) (x : Nat × Nat × Nat)
    (h : strptimeYmd cs = some x) : 6 ≤ cs.length ∧ cs.length ≤ 8 := by
  obtain ⟨y1, y2, y3, y4, rest, m, d, rfl, -, -, -, -, hm, -⟩ := strptimeYmd_eq_some cs x h
  have hrest : 2 ≤ rest.length ∧ rest.length ≤ 4 := by
    rcases monthDay_cases rest (m, d) hm with h1 | h2 | h3
    · obtain ⟨c1, c2, r2, d2, rfl, -, -, -, hd, -⟩ := mdAlt1_eq_some rest (m, d) h1
      rcases dayFull_length r2 d2 hd with hl | hl <;> simp [hl]
    · obtain ⟨c1, c2, r2, d2, rfl, -, -, -, hd, -⟩ := mdAlt2_eq_some rest (m, d) h2
      rcases dayFull_length r2 d2 hd with hl | hl <;> simp [hl]
    · obtain ⟨c1, r2, d2, rfl, -, -, hd, -⟩ := mdAlt3_eq_some rest (m, d) h3
      rcases dayFull_length r2 d2 hd with hl | hl <;> simp [hl]
  simp only [List.length_cons]
  omega

theorem ymdDigits_two (a b : Char) : ymdDigits [a, b] = 10 * digitVal a + digitVal b := by
  simp only [ymdDigits, List.foldl]
  ring

theorem ymdDigits_four (a b c d : Char) :
    ymdDigits [a, b, c, d] =
      1000 * digitVal a + 100 * digitVal b + 10 * digitVal c + digitVal d := by
  simp only [ymdDigits, List.foldl]
  ring

theorem daysInMonth_le (y m : Nat) : daysInMonth y m ≤ 31 := by
  unfold daysInMonth
  split_ifs <;> omega

theorem dayFull_two (g h : Char) (hg : g.isDigit = true) (hh : h.isDigit = true)
    (hlo : 1 ≤ 10 * digitVal g + digitVal h) (hhi : 10 * digitVal g + digitVal h ≤ 31) :
    dayFull [g, h] = some (10 * digitVal g + digitVal h) := by
  have hgn := (char_isDigit_iff g).mp hg
  have hhn := (char_isDigit_iff h).mp hh
  have dg : digitVal g = g.toNat - 48 := rfl
  have dh : digitVal h = h.toNat - 48 := rfl
  have d3 : digitVal '3' = 3 := rfl
  simp only [dayFull]
  by_cases h30 : 30 ≤ 10 * digitVal g + digitVal h
  · have hg3 : g = '3' := by rw [char_eq_iff, toNatC3]; omega
    have hgv : digitVal g = 3 := by rw [hg3]; rfl
    rw [if_pos ⟨hg3, by rw [char_le_iff, toNatC0]; omega, by rw [char_le_iff, toNatC1]; omega⟩]
    exact congrArg some (by omega)
  · by_cases h10 : 10 ≤ 10 * digitVal g + digitVal h
    · have hg12 : g = '1' ∨ g = '2' := by
        by_cases hv : digitVal g = 1
        · exact Or.inl (by rw [char_eq_iff, toNatC1]; omega)
        · exact Or.inr (by rw [char_eq_iff, toNatC2]; omega)
      have hne3 : ¬(g = '3' ∧ '0' ≤ h ∧ h ≤ '1') := by
        rintro ⟨rfl, -⟩
        omega
      rw [if_neg hne3, if_pos ⟨hg12, hh⟩]
    · have hg0 : g = '0' := by rw [char_eq_iff, toNatC0]; omega
      have hgv : digitVal g = 0 := by rw [hg0]; rfl
      have hne3 : ¬(g = '3' ∧ '0' ≤ h ∧ h ≤ '1') := by
        rintro ⟨rfl, -⟩
        omega
      have d1 : digitVal '1' = 1 := rfl
      have d2 : digitVal '2' = 2 := rfl
      have hne12 : ¬((g = '1' ∨ g = '2') ∧ h.isDigit = true) := by
        rintro ⟨rfl | rfl, -⟩ <;> omega
      rw [if_neg hne3, if_neg hne12,
          if_pos ⟨hg0, by rw [char_le_iff, toNatC1]; omega, by rw [char_le_iff, toNatC9]; omega⟩]
      exact congrArg some (by omega)

theorem monthDay_four (e f g h : Char) (he : e.isDigit = true) (hf : f.isDigit = true)
    (hg : g.isDigit = true) (hh : h.isDigit = true)
    (hm1 : 1 ≤ 10 * digitVal e + digitVal f) (hm12 : 10 * digitVal e + digitVal f ≤ 12)
    (hd1 : 1 ≤ 10 * digitVal g + digitVal h) (hd31 : 10 * digitVal g + digitVal h ≤ 31) :
    monthDay [e, f, g, h] =
      some (10 * digitVal e + digitVal f, 10 * digitVal g + digitVal h) := by
  have hen := (char_isDigit_iff e).mp he
  have hfn := (char_isDigit_iff f).mp hf
  have de : digitVal e = e.toNat - 48 := rfl
  have df : digitVal f = f.toNat - 48 := rfl
  have hday := dayFull_two g h hg hh hd1 hd31
  unfold monthDay
  by_cases h10 : 10 ≤ 10 * digitVal e + digitVal f
  · have he1 : e = '1' := by rw [char_eq_iff, toNatC1]; omega
    have hev : digitVal e = 1 := by rw [he1]; rfl
    have halt1 : mdAlt1 [e, f, g, h] =
        some (10 * digitVal e + digitVal f, 10 * digitVal g + digitVal h) := by
      simp only [mdAlt1]
      rw [if_pos ⟨he1, by rw [char_le_iff, toNatC0]; omega, by rw [char_le_iff, toNatC2]; omega⟩,
          hday]
      exact congrArg some (by rw [Prod.mk.injEq]; exact ⟨by omega, rfl⟩)
    rw [halt1]
    rfl
  · have he0 : e = '0' := by rw [char_eq_iff, toNatC0]; omega
    have hev : digitVal e = 0 := by rw [he0]; rfl
    have d1 : digitVal '1' = 1 := rfl
    have halt1 : mdAlt1 [e, f, g, h] = none := by
      simp only [mdAlt1]
      rw [if_neg]
      rintro ⟨rfl, -⟩
      omega
    have halt2 : mdAlt2 [e, f, g, h] =
        some (10 * digitVal e + digitVal f, 10 * digitVal g + digitVal h) := by
      simp only [mdAlt2]
      rw [if_pos ⟨he0, by rw [char_le_iff, toNatC1]; omega, by rw [char_le_iff, toNatC9]; omega⟩,
          hday]
      exact congrArg some (by rw [Prod.mk.injEq]; exact ⟨by omega, rfl⟩)
    rw [halt1, halt2]
    rfl

theorem daysInMonth_ge28 (y m : Nat) : 28 ≤ daysInMonth y m := by
  unfold daysInMonth
  split_ifs <;> omega

theorem dayFull_space (h : Char) (hh1 : '1' ≤ h) (hh9 : h ≤ '9') :
    dayFull [' ', h] = some (digitVal h) := by
  have h3 : ¬(' ' = '3' ∧ ('0' ≤ h ∧ h ≤ '1')) := by
    rintro ⟨hc, -⟩
    exact absurd hc (by decide)
  have h12 : ¬((' ' = '1' ∨ ' ' = '2') ∧ h.isDigit = true) := by
    rintro ⟨hc | hc, -⟩ <;> exact absurd hc (by decide)
  have h0 : ¬(' ' = '0' ∧ ('1' ≤ h ∧ h ≤ '9')) := by
    rintro ⟨hc, -⟩
    exact absurd hc (by decide)
  simp only [dayFull]
  rw [if_neg h3, if_neg h12, if_neg h0, if_pos ⟨trivial, hh1, hh9⟩]

theorem monthDay_space (e f h : Char) (he : e.isDigit = true) (hf : f.isDigit = true)
    (hm1 : 1 ≤ 10 * digitVal e + digitVal f) (hm12 : 10 * digitVal e + digitVal f ≤ 12)
    (hh1 : '1' ≤ h) (hh9 : h ≤ '9') :
    monthDay [e, f, ' ', h] =
      some (10 * digitVal e + digitVal f, digitVal h) := by
  have hen := (char_isDigit_iff e).mp he
  have hfn := (char_isDigit_iff f).mp hf
  have de : digitVal e = e.toNat - 48 := rfl
  have df : digitVal f = f.toNat - 48 := rfl
  have hday := dayFull_space h hh1 hh9
  unfold monthDay
  by_cases h10 : 10 ≤ 10 * digitVal e + digitVal f
  · have he1 : e = '1' := by rw [char_eq_iff, toNatC1]; omega
    have hev : digitVal e = 1 := by rw [he1]; rfl
    have halt1 : mdAlt1 [e, f, ' ', h] =
        some (10 * digitVal e + digitVal f, digitVal h) := by
      simp only [mdAlt1]
      rw [if_pos ⟨he1, by rw [char_le_iff, toNatC0]; omega, by rw [char_le_iff, toNatC2]; omega⟩,
          hday]
      exact congrArg some (by rw [Prod.mk.injEq]; exact ⟨by omega, rfl⟩)
    rw [halt1]
    rfl
  · have he0 : e = '0' := by rw [char_eq_iff, toNatC0]; omega
    have hev : digitVal e = 0 := by rw [he0]; rfl
    have d1 : digitVal '1' = 1 := rfl
    have halt1 : mdAlt1 [e, f, ' ', h] = none := by
      simp only [mdAlt1]
      rw [if_neg]
      rintro ⟨rfl, -⟩
      omega
    have halt2 : mdAlt2 [e, f, ' ', h] =
        some (10 * digitVal e + digitVal f, digitVal h) := by
      simp only [mdAlt2]
      rw [if_pos ⟨he0, by rw [char_le_iff, toNatC1]; omega, by rw [char_le_iff, toNatC9]; omega⟩,
          hday]
      exact congrArg some (by rw [Prod.mk.injEq]; exact ⟨by omega, rfl⟩)
    rw [halt1, halt2]
    rfl

theorem strptimeYmd_complete (y1 y2 y3 y4 e f g h : Char)
    (h1 : y1.isDigit = true) (h2 : y2.isDigit = true) (h3 : y3.isDigit = true)
    (h4 : y4.isDigit = true) (he : e.isDigit = true) (hf : f.isDigit = true)
    (hg : g.isDigit = true) (hh : h.isDigit = true)
    (hy : 1 ≤ ymdDigits [y1, y2, y3, y4])
    (hm1 : 1 ≤ ymdDigits [e, f]) (hm12 : ymdDigits [e, f] ≤ 12)
    (hd1 : 1 ≤ ymdDigits [g, h])
    (hd : ymdDigits [g, h] ≤ daysInMonth (ymdDigits [y1, y2, y3, y4]) (ymdDigits [e, f])) :
    strptimeYmd [y1, y2, y3, y4, e, f, g, h] =
      some (ymdDigits [y1, y2, y3, y4], ymdDigits [e, f], ymdDigits [g, h]) := by
  have me : ymdDigits [e, f] = 10 * digitVal e + digitVal f := ymdDigits_two e f
  have mg : ymdDigits [g, h] = 10 * digitVal g + digitVal h := ymdDigits_two g h
  rw [me] at hm1 hm12
  rw [mg] at hd1
  rw [me, mg] at hd
  rw [me, mg]
  simp only [strptimeYmd]
  rw [if_pos ⟨h1, h2, h3, h4⟩, monthDay_four e f g h he hf hg hh hm1 hm12 hd1 (by
    have h31 := daysInMonth_le (ymdDigits [y1, y2, y3, y4]) (10 * digitVal e + digitVal f)
    omega)]
  dsimp only
  rw [if_pos ⟨by rw [ymdDigits_four] at hy; exact hy, by rw [ymdDigits_four] at hd; exact hd⟩]
  rw [ymdDigits_four]

theorem strptimeYmd_space (y1 y2 y3 y4 e f h : Char)
    (h1 : y1.isDigit = true) (h2 : y2.isDigit = true) (h3 : y3.isDigit = true)
    (h4 : y4.isDigit = true) (he : e.isDigit = true) (hf : f.isDigit = true)
    (hh1 : '1' ≤ h) (hh9 : h ≤ '9')
    (hy : 1 ≤ ymdDigits [y1, y2, y3, y4])
    (hm1 : 1 ≤ ymdDigits [e, f]) (hm12 : ymdDigits [e, f] ≤ 12) :
    strptimeYmd [y1, y2, y3, y4, e, f, ' ', h] =
      some (ymdDigits [y1, y2, y3, y4], ymdDigits [e, f], digitVal h) := by
  have me : ymdDigits [e, f] = 10 * digitVal e + digitVal f := ymdDigits_two e f
  rw [me] at hm1 hm12
  rw [me]
  have hday : digitVal h ≤
      daysInMonth (1000 * digitVal y1 + 100 * digitVal y2 + 10 * digitVal y3 + digitVal y4)
        (10 * digitVal e + digitVal f) := by
    have h28 := daysInMonth_ge28
      (1000 * digitVal y1 + 100 * digitVal y2 + 10 * digitVal y3 + digitVal y4)
      (10 * digitVal e + digitVal f)
    have hh9n : h.toNat ≤ 57 := by rw [char_le_iff, toNatC9] at hh9; exact hh9
    have dh : digitVal h = h.toNat - 48 := rfl
    omega
  simp only [strptimeYmd]
  rw [if_pos ⟨h1, h2, h3, h4⟩, monthDay_space e f h he hf hm1 hm12 hh1 hh9]
  dsimp only
  rw [if_pos ⟨by rw [ymdDigits_four] at hy; exact hy, hday⟩]
  rw [ymdDigits_four]

theorem dayFull_two_inv (g h : Char) (d : Nat) (hd : dayFull [g, h] = some d) :
    (g.isDigit = true ∧ h.isDigit = true ∧ d = 10 * digitVal g + digitVal h ∧ 1 ≤ d) ∨
    (g = ' ' ∧ '1' ≤ h ∧ h ≤ '9' ∧ d = digitVal h ∧ 1 ≤ d ∧ d ≤ 9) := by
  have dg : digitVal g = g.toNat - 48 := rfl
  have dh : digitVal h = h.toNat - 48 := rfl
  simp only [dayFull] at hd
  split_ifs at hd with h1 h2 h3 h4
  · obtain ⟨hg3, hlo, hhi⟩ := h1
    rw [char_le_iff, toNatC0] at hlo
    rw [char_le_iff, toNatC1] at hhi
    have hgv : digitVal g = 3 := by rw [hg3]; rfl
    have hdv : 30 + digitVal h = d := by injection hd
    exact Or.inl ⟨by rw [hg3]; rfl, (char_isDigit_iff h).mpr (by omega), by omega, by omega⟩
  · obtain ⟨hg12, hhd⟩ := h2
    have hgd : g.isDigit = true := by
      rcases hg12 with h9 | h9 <;> (rw [h9]; rfl)
    have hg1 : 1 ≤ digitVal g := by
      rcases hg12 with h9 | h9 <;> (rw [h9]; decide)
    have hdv : 10 * digitVal g + digitVal h = d := by injection hd
    exact Or.inl ⟨hgd, hhd, by omega, by omega⟩
  · obtain ⟨hg0, hlo, hhi⟩ := h3
    rw [char_le_iff, toNatC1] at hlo
    rw [char_le_iff, toNatC9] at hhi
    have hgv : digitVal g = 0 := by rw [hg0]; rfl
    have hdv : digitVal h = d := by injection hd
    exact Or.inl ⟨by rw [hg0]; rfl, (char_isDigit_iff h).mpr (by omega), by omega, by omega⟩
  · obtain ⟨hgs, hlo, hhi⟩ := h4
    have hdv : digitVal h = d := by injection hd
    have hlo2 := hlo
    have hhi2 := hhi
    rw [char_le_iff, toNatC1] at hlo2
    rw [char_le_iff, toNatC9] at hhi2
    exact Or.inr ⟨hgs, hlo, hhi, hdv.symm, by omega, by omega⟩

theorem strptimeYmd_eight_valid (cs : List Char) (x : Nat × Nat × Nat)
    (hlen : cs.length = 8) (h : strptimeYmd cs = some x) :
    validYmd8 cs ∨ spacePadYmd8 cs := by
  obtain ⟨y1, y2, y3, y4, rest, m, d, rfl, hd1, hd2, hd3, hd4, hm, hy1, hdm, -⟩ :=
    strptimeYmd_eq_some cs x h
  have hrl : rest.length = 4 := by
    simp only [List.length_cons] at hlen
    omega
  have de0 : digitVal '0' = 0 := rfl
  have de1 : digitVal '1' = 1 := rfl
  rcases monthDay_cases rest (m, d) hm with halt | halt | halt
  · obtain ⟨c1, c2, r2, d2, rfl, hc1, hc2lo, hc2hi, hdf, hx⟩ := mdAlt1_eq_some rest (m, d) halt
    have hr2 : r2.length = 2 := by
      simp only [List.length_cons] at hrl
      omega
    rcases r2 with _ | ⟨g, _ | ⟨h2, _ | ⟨z, t⟩⟩⟩ <;> simp at hr2
    rw [Prod.mk.injEq] at hx
    obtain ⟨rfl, rfl⟩ := hx
    rw [char_le_iff, toNatC0] at hc2lo
    rw [char_le_iff, toNatC2] at hc2hi
    have dc2 : digitVal c2 = c2.toNat - 48 := rfl
    subst hc1
    rcases dayFull_two_inv g h2 _ hdf with ⟨hgd, hhd, rfl, hdlo⟩ |
        ⟨rfl, hhlo, hhhi, rfl, hsd1, hsd9⟩
    · refine Or.inl ⟨rfl, ?_, ?_, ?_, ?_, ?_, ?_⟩
      · intro c hc
        simp only [List.mem_cons, List.not_mem_nil, or_false] at hc
        rcases hc with rfl | rfl | rfl | rfl | rfl | rfl | rfl | rfl
        · exact hd1
        · exact hd2
        · exact hd3
        · exact hd4
        · rfl
        · exact (char_isDigit_iff c).mpr (by omega)
        · exact hgd
        · exact hhd
      · exact hy1
      · show 1 ≤ ymdDigits ['1', c2]
        rw [ymdDigits_two]
        omega
      · show ymdDigits ['1', c2] ≤ 12
        rw [ymdDigits_two]
        omega
      · show 1 ≤ ymdDigits [g, h2]
        rw [ymdDigits_two]
        omega
      · show ymdDigits [g, h2] ≤ daysInMonth (ymdDigits [y1, y2, y3, y4]) (ymdDigits ['1', c2])
        rw [ymdDigits_two, ymdDigits_two]
        have hmv : 10 + digitVal c2 = 10 * digitVal '1' + digitVal c2 := by omega
        rw [← hmv]
        exact hdm
    · refine Or.inr ⟨rfl, ?_, rfl, hhlo, hhhi, hy1, ?_, ?_⟩
      · intro c hc
        have hc6 : c ∈ [y1, y2, y3, y4, '1', c2] := hc
        simp only [List.mem_cons, List.not_mem_nil, or_false] at hc6
        rcases hc6 with rfl | rfl | rfl | rfl | rfl | rfl
        · exact hd1
        · exact hd2
        · exact hd3
        · exact hd4
        · rfl
        · exact (char_isDigit_iff c).mpr (by omega)
      · show 1 ≤ ymdDigits ['1', c2]
        rw [ymdDigits_two]
        omega
      · show ymdDigits ['1', c2] ≤ 12
        rw [ymdDigits_two]
        omega
  · obtain ⟨c1, c2, r2, d2, rfl, hc1, hc2lo, hc2hi, hdf, hx⟩ := mdAlt2_eq_some rest (m, d) halt
    have hr2 : r2.length = 2 := by
      simp only [List.length_cons] at hrl
      omega
    rcases r2 with _ | ⟨g, _ | ⟨h2, _ | ⟨z, t⟩⟩⟩ <;> simp at hr2
    rw [Prod.mk.injEq] at hx
    obtain ⟨rfl, rfl⟩ := hx
    rw [char_le_iff, toNatC1] at hc2lo
    rw [char_le_iff, toNatC9] at hc2hi
    have dc2 : digitVal c2 = c2.toNat - 48 := rfl
    subst hc1
    rcases dayFull_two_inv g h2 _ hdf with ⟨hgd, hhd, rfl, hdlo⟩ |
        ⟨rfl, hhlo, hhhi, rfl, hsd1, hsd9⟩
    · refine Or.inl ⟨rfl, ?_, ?_, ?_, ?_, ?_, ?_⟩
      · intro c hc
        simp only [List.mem_cons, List.not_mem_nil, or_false] at hc
        rcases hc with rfl | rfl | rfl | rfl | rfl | rfl | rfl | rfl
        · exact hd1
        · exact hd2
        · exact hd3
        · exact hd4
        · rfl
        · exact (char_isDigit_iff c).mpr (by omega)
        · exact hgd
        · exact hhd
      · exact hy1
      · show 1 ≤ ymdDigits ['0', c2]
        rw [ymdDigits_two]
        omega
      · show ymdDigits ['0', c2] ≤ 12
        rw [ymdDigits_two]
        omega
      · show 1 ≤ ymdDigits [g, h2]
        rw [ymdDigits_two]
        omega
      · show ymdDigits [g, h2] ≤ daysInMonth (ymdDigits [y1, y2, y3, y4]) (ymdDigits ['0', c2])
        rw [ymdDigits_two, ymdDigits_two]
        have hmv : digitVal c2 = 10 * digitVal '0' + digitVal c2 := by omega
        rw [← hmv]
        exact hdm
    · refine Or.inr ⟨rfl, ?_, rfl, hhlo, hhhi, hy1, ?_, ?_⟩
      · intro c hc
        have hc6 : c ∈ [y1, y2, y3, y4, '0', c2] := hc
        simp only [List.mem_cons, List.not_mem_nil, or_false] at hc6
        rcases hc6 with rfl | rfl | rfl | rfl | rfl | rfl
        · exact hd1
        · exact hd2
        · exact hd3
        · exact hd4
        · rfl
        · exact (char_isDigit_iff c).mpr (by omega)
      · show 1 ≤ ymdDigits ['0', c2]
        rw [ymdDigits_two]
        omega
      · show ymdDigits ['0', c2] ≤ 12
        rw [ymdDigits_two]
        omega
  · obtain ⟨c1, r2, d2, rfl, -, -, hdf, -⟩ := mdAlt3_eq_some rest (m, d) halt
    rcases dayFull_length r2 d2 hdf with hl | hl <;>
      (simp only [List.length_cons, hl] at hrl; omega)

theorem strptimeYmd_eight_iff (cs : List Char) (hlen : cs.length = 8) :
    (strptimeYmd cs).isSome = true ↔ validYmd8 cs ∨ spacePadYmd8 cs := by
  constructor
  · intro h
    rcases hx : strptimeYmd cs with _ | x
    · rw [hx] at h
      cases h
    · exact strptimeYmd_eight_valid cs x hlen hx
  · intro hv
    rcases cs with _ | ⟨a, _ | ⟨b, _ | ⟨c, _ | ⟨d, _ | ⟨e, _ | ⟨f, _ | ⟨g, _ | ⟨h, t⟩⟩⟩⟩⟩⟩⟩⟩ <;>
      simp only [List.length_cons, List.length_nil] at hlen <;> try omega
    have ht : t = [] := by
      cases t with
      | nil => rfl
      | cons z t2 => simp at hlen
    subst ht
    rcases hv with hv | hv
    · obtain ⟨-, hdig, hy, hm1, hm12, hday1, hday⟩ := hv
      rw [strptimeYmd_complete a b c d e f g h
        (hdig a (by simp)) (hdig b (by simp)) (hdig c (by simp)) (hdig d (by simp))
        (hdig e (by simp)) (hdig f (by simp)) (hdig g (by simp)) (hdig h (by simp))
        hy hm1 hm12 hday1 hday]
      rfl
    · obtain ⟨-, hdig, hg, hh1, hh9, hy, hm1, hm12⟩ := hv
      have hg2 : g = ' ' := hg
      subst hg2
      rw [strptimeYmd_space a b c d e f h
        (hdig a (by simp)) (hdig b (by simp)) (hdig c (by simp)) (hdig d (by simp))
        (hdig e (by simp)) (hdig f (by simp)) hh1 hh9 hy hm1 hm12]
      rfl

/-- C8 (counterexample): the claim's 8-digit-only characterization fails —
`date_convert` also accepts the six-character text `"202111"` (the `%m`
and `%d` patterns match single digits, with backtracking), parsing it as
January 1st, 2021. -/
theorem c8_counterexample :
    dateConvert (some "202111") = .ok (.date 2021 1 1) ∧ ¬ validYmd8 "202111".data := by
  exact ⟨rfl, by decide⟩

/-- C8 (amended): restricted to 8-character texts, `date_convert` succeeds
exactly on valid `YYYYMMDD` calendar dates and on `YYYYMM D` texts whose
day is a space followed by a nonzero digit (the fifth alternative of the
compiled `%d` pattern); it also accepts certain 6- and 7-character texts
(month and day matched by one digit, with backtracking), and nothing
shorter or longer. -/
theorem c8_date_parse (s : String) :
    (s.data.length = 8 →
      ((dateConvert (some s)).isOk = true ↔ validYmd8 s.data ∨ spacePadYmd8 s.data)) ∧
    ((dateConvert (some s)).isOk = true → 6 ≤ s.data.length ∧ s.data.length ≤ 8) := by
  have hbr : (dateConvert (some s)).isOk = (strptimeYmd s.data).isSome := by
    have hred : dateConvert (some s) =
        (match strptimeYmd s.data with
         | some ymd => Except.ok (Value.date ymd.1 ymd.2.1 ymd.2.2)
         | none => Except.error ImpErr.parseError) := rfl
    rw [hred]
    rcases strptimeYmd s.data with _ | x <;> rfl
  constructor
  · intro hlen
    rw [hbr]
    exact strptimeYmd_eight_iff s.data hlen
  · intro h
    rw [hbr] at h
    rcases hx : strptimeYmd s.data with _ | x
    · rw [hx] at h
      cases h
    · exact strptimeYmd_length s.data x hx

theorem c8_date_parse_witness :
    (dateConvert (some "20240229")).isOk = true ∧
    (dateConvert (some "202112 5")).isOk = true ∧
    6 ≤ "20240229".data.length ∧ "20240229".data.length ≤ 8 :=
  ⟨((c8_date_parse "20240229").1 (by decide)).mpr (Or.inl (by decide)),
   ((c8_date_parse "202112 5").1 (by decide)).mpr (Or.inr (by decide)),
   (c8_date_parse "20240229").2
     (((c8_date_parse "20240229").1 (by decide)).mpr (Or.inl (by decide)))⟩

/-! ## C1: m2m aggregation

Lemmas on the set-union `add`, on `get_or_create`, and on the m2m commit
loop, leading to the idempotent-resolution claim.
-/

theorem listAdd_mem (l : List Nat) (i j : Nat) : j ∈ listAdd l i ↔ j ∈ l ∨ j = i := by
  unfold listAdd
  split_ifs with h
  · constructor
    · exact Or.inl
    · rintro (hj | rfl)
      · exact hj
      · exact h
  · simp

theorem listAdd_nodup (l : List Nat) (i : Nat) (h : l.Nodup) : (listAdd l i).Nodup := by
  unfold listAdd
  split_ifs with hmem
  · exact h
  · rw [List.nodup_append]
    exact ⟨h, List.nodup_singleton i, by simpa using hmem⟩

theorem addM2m_fields (r : Record) (f : String) (i : Nat) :
    (r.addM2m f i).fields = r.fields := by
  unfold Record.addM2m
  split_ifs <;> rfl

theorem find?_mapUpdate (l : List (String × List Nat)) (f : String) (i : Nat) (g : String) :
    (l.map (fun p => if p.1 = f then (f, listAdd p.2 i) else p)).find? (fun p => p.1 = g) =
      if g = f then (l.find? (fun p => p.1 = f)).map (fun p => (f, listAdd p.2 i))
      else l.find? (fun p => p.1 = g) := by
  induction l with
  | nil => split_ifs <;> rfl
  | cons p rest ih =>
      by_cases hp : p.1 = f
      · by_cases hg : g = f
        · subst hg
          simp [List.find?, hp, ih]
        · have hfg : ¬f = g := fun h => hg h.symm
          simp [List.find?, hp, hg, hfg, ih]
      · by_cases hg : g = f
        · subst hg
          simp [List.find?, hp, ih]
        · by_cases hpg : p.1 = g
          · simp [List.find?, hp, hpg, hg]
          · simp [List.find?, hp, hpg, hg, ih]

theorem m2mAt_addM2m (r : Record) (f : String) (i : Nat) (g : String) :
    (r.addM2m f i).m2mAt g = if g = f then listAdd (r.m2mAt f) i else r.m2mAt g := by
  unfold Record.addM2m Record.m2mAt
  by_cases hany : r.m2m.any (fun p => p.1 = f) = true
  · rw [if_pos hany]
    dsimp only
    rw [find?_mapUpdate]
    by_cases hg : g = f
    · subst hg
      rw [if_pos rfl, if_pos rfl]
      rcases hfind : r.m2m.find? (fun p => p.1 = g) with _ | q
      · rw [List.any_eq_true] at hany
        obtain ⟨q, hq, hq2⟩ := hany
        rw [List.find?_eq_none] at hfind
        exact absurd hq2 (by simpa using hfind q hq)
      · rw [hfind]
        simp
    · rw [if_neg hg, if_neg hg]
  · rw [if_neg hany]
    dsimp only
    rw [List.find?_append]
    by_cases hg : g = f
    · subst hg
      have hfind : r.m2m.find? (fun p => p.1 = g) = none := by
        rw [List.find?_eq_none]
        intro q hq
        simp only [decide_eq_true_eq]
        intro hqg
        exact hany (List.any_eq_true.mpr ⟨q, hq, by simp [hqg]⟩)
      rw [if_pos rfl, hfind]
      simp [List.find?, listAdd]
    · have hfg : ¬f = g := fun h => hg h.symm
      have hsing : List.find? (fun p => p.1 = g) [(f, [i])] = none := by
        simp [List.find?, hfg]
      rw [if_neg hg, hsing]
      simp

theorem m2mAt_nil (m2f : List (String × Value)) (fname : String) :
    (Record.m2mAt { fields := m2f, m2m := [] } fname) = [] := rfl

theorem set_get?_eq (l : List Record) (i : Nat) (a : Record) (h : l.get? i = some a) :
    l.set i a = l := by
  induction l generalizing i with
  | nil => rfl
  | cons x rest ih =>
      cases i with
      | zero =>
          cases h
          rfl
      | succ j =>
          simp only [List.set]
          rw [ih j h]

theorem addAllM2m_spec (l : List (String × Value)) :
    ∀ (st : Store) (idx : Nat) (r0 : Record),
      st.records.get? idx = some r0 →
      (∀ p ∈ l, ∃ i, p.2 = Value.ref i) →
      ∃ r1 : Record, addAllM2m st idx l = ({ st with records := st.records.set idx r1 }, none) ∧
        r1.fields = r0.fields ∧
        (∀ fname i, i ∈ r1.m2mAt fname ↔ i ∈ r0.m2mAt fname ∨ (fname, Value.ref i) ∈ l) ∧
        (∀ fname, (r0.m2mAt fname).Nodup → (r1.m2mAt fname).Nodup) := by
  induction l with
  | nil =>
      intro st idx r0 hget _
      refine ⟨r0, ?_, rfl, ?_, ?_⟩
      · rw [addAllM2m, set_get?_eq _ _ _ hget]
      · intro fname i
        simp
      · intro fname h
        exact h
  | cons p rest ih =>
      intro st idx r0 hget hrefs
      obtain ⟨pf, pv⟩ := p
      obtain ⟨i0, hp2⟩ := hrefs (pf, pv) (List.mem_cons_self _ _)
      simp only at hp2
      subst hp2
      have hlt : idx < st.records.length := (List.get?_eq_some.mp hget).1
      have hget2 : (st.records.set idx (r0.addM2m pf i0)).get? idx =
          some (r0.addM2m pf i0) := by
        rw [List.get?_set_eq_of_lt _ (by simpa using hlt)]
      obtain ⟨r1, heq, hfields, hmem, hnd⟩ :=
        ih { st with records := st.records.set idx (r0.addM2m pf i0) } idx
          (r0.addM2m pf i0) hget2 (fun q hq => hrefs q (List.mem_cons_of_mem _ hq))
      refine ⟨r1, ?_, hfields.trans (addM2m_fields r0 pf i0), ?_, ?_⟩
      · rw [addAllM2m, hget]
        dsimp only
        rw [heq]
        simp [List.set_set]
      · intro fname i
        rw [hmem fname i]
        rw [m2mAt_addM2m]
        by_cases hf : fname = pf
        · subst hf
          rw [if_pos rfl, listAdd_mem]
          constructor
          · rintro ((hi | rfl) | hi)
            · exact Or.inl hi
            · exact Or.inr (List.mem_cons_self _ _)
            · exact Or.inr (List.mem_cons_of_mem _ hi)
          · rintro (hi | hi)
            · exact Or.inl (Or.inl hi)
            · rcases List.mem_cons.mp hi with heq2 | hi2
              · left
                right
                have hsnd := congrArg Prod.snd heq2
                simp only [Value.ref.injEq] at hsnd
                exact hsnd
              · exact Or.inr hi2
        · rw [if_neg hf]
          constructor
          · rintro (hi | hi)
            · exact Or.inl hi
            · exact Or.inr (List.mem_cons_of_mem _ hi)
          · rintro (hi | hi)
            · exact Or.inl hi
            · rcases List.mem_cons.mp hi with heq2 | hi2
              · exact absurd (congrArg Prod.fst heq2) (by simpa using hf)
              · exact Or.inr hi2
      · intro fname hnd0
        apply hnd
        rw [m2mAt_addM2m]
        split_ifs with hf
        · exact listAdd_nodup _ _ (hf ▸ hnd0)
        · exact hnd0

theorem find?_key_self (kw : List (String × Value)) (hnd : (kw.map Prod.fst).Nodup) :
    ∀ p ∈ kw, kw.find? (fun q => q.1 = p.1) = some p := by
  induction kw with
  | nil => intro p hp; cases hp
  | cons a rest ih =>
      intro p hp
      rw [List.map_cons, List.nodup_cons] at hnd
      rcases List.mem_cons.mp hp with rfl | hp2
      · simp [List.find?]
      · have ha : ¬a.1 = p.1 := by
          intro hcontra
          exact hnd.1 (hcontra ▸ List.mem_map_of_mem Prod.fst hp2)
        simp only [List.find?, decide_eq_false ha, cond_false]
        exact ih hnd.2 p hp2

theorem recMatches_of_fields_eq (r : Record) (kw : List (String × Value))
    (hf : r.fields = kw) (hnd : (kw.map Prod.fst).Nodup) : recMatches r kw = true := by
  rw [recMatches, List.all_eq_true]
  intro p hp
  simp only [decide_eq_true_eq]
  rw [lookupField, lookupKV, hf, find?_key_self kw hnd p hp]
  rfl

theorem recMatches_fields_only (r1 r2 : Record) (kw : List (String × Value))
    (h : r1.fields = r2.fields) : recMatches r1 kw = recMatches r2 kw := by
  unfold recMatches lookupField lookupKV
  rw [h]

theorem findIdx?_append_singleton (l : List Record) (a : Record) (p : Record → Bool)
    (hl : ∀ r ∈ l, p r = false) (ha : p a = true) :
    (l ++ [a]).findIdx? p = some l.length := by
  rw [List.findIdx?_append, List.findIdx?_eq_none_iff.mpr hl]
  simp [List.findIdx?_cons, ha]

theorem getOrCreate_new (st : Store) (kw : List (String × Value))
    (h : ∀ r ∈ st.records, recMatches r kw = false) :
    getOrCreate st kw =
      (st.records.length, { st with records := st.records ++ [{ fields := kw, m2m := [] }] }) := by
  unfold getOrCreate
  rw [List.findIdx?_eq_none_iff.mpr h]

theorem getOrCreate_found_last (st : Store) (kw : List (String × Value))
    (l0 : List Record) (r : Record)
    (hrec : st.records = l0 ++ [r])
    (h0 : ∀ q ∈ l0, recMatches q kw = false)
    (hr : recMatches r kw = true) :
    getOrCreate st kw = (l0.length, st) := by
  unfold getOrCreate
  rw [hrec, findIdx?_append_singleton l0 r _ h0 hr]

theorem setField_keys_nodup (l : List (String × Value)) (k : String) (v : Value)
    (h : (l.map Prod.fst).Nodup) : ((setField l k v).map Prod.fst).Nodup := by
  unfold setField
  split_ifs with hany
  · have hkeys : (l.map (fun p => if p.1 = k then (k, v) else p)).map Prod.fst =
        l.map Prod.fst := by
      rw [List.map_map]
      apply List.map_congr_left
      intro p hp
      by_cases hpk : p.1 = k
      · simp [hpk]
      · simp [hpk]
    rw [hkeys]
    exact h
  · rw [List.map_append]
    simp only [List.map_cons, List.map_nil]
    rw [List.nodup_append]
    refine ⟨h, List.nodup_singleton k, ?_⟩
    intro a hal hak
    simp only [List.mem_singleton] at hak
    subst hak
    obtain ⟨p, hp, hpk⟩ := List.mem_map.mp hal
    exact hany (List.any_eq_true.mpr ⟨p, hp, by simp [hpk]⟩)

theorem processColumns_fields_nodup (specs : List ColSpec) (feed : Nat) :
    ∀ (row : Row) (acc : RowOut) (out : RowOut),
      (acc.fields.map Prod.fst).Nodup →
      processColumns specs feed row acc = .ok out →
      (out.fields.map Prod.fst).Nodup := by
  intro row
  induction row with
  | nil => intro acc out hnd h; cases h; exact hnd
  | cons p rest ih =>
      intro acc out hnd h
      rw [processColumns] at h
      rcases hf : findSpec specs p.1 with _ | sp <;> simp only [hf] at h
      · by_cases ht : truthy p.2 = true
        · rw [if_pos ht] at h; cases h
        · rw [if_neg ht] at h
          exact ih acc out hnd h
      · rcases hc : fieldConvert sp.field sp.relName feed acc.store p.2 with e | ⟨v, st1⟩ <;>
          simp only [hc] at h
        · cases h
        · by_cases hm : sp.isM2M = true
          · rw [if_pos hm] at h
            exact ih { acc with m2ms := setField acc.m2ms sp.fieldName v, store := st1 }
              out hnd h
          · rw [if_neg hm] at h
            exact ih { acc with fields := setField acc.fields sp.fieldName v, store := st1 }
              out (setField_keys_nodup _ _ _ hnd) h

theorem set_concat_length (l : List Record) (a b : Record) :
    (l ++ [a]).set l.length b = l ++ [b] := by
  induction l with
  | nil => rfl
  | cons x rest ih =>
      show x :: ((rest ++ [a]).set rest.length b) = x :: (rest ++ [b])
      rw [ih]

/-- C1: two imported rows with identical converted single-valued fields,
each carrying many-to-many contributions, resolve to exactly one
underlying record (find-or-create), and every contribution is added with
set-union semantics: the record holds all contributed related ids with no
duplicates. -/
theorem c1_m2m_union (m : GtfsModel) (specs : List ColSpec) (feed : Nat) (st0 : Store)
    (row1 row2 : Row) (out1 out2 : RowOut)
    (hspecs : buildSpecs m = some specs)
    (h1 : processColumns specs feed row1
        { fields := initFields m feed, m2ms := [], store := st0 } = .ok out1)
    (hm1 : out1.m2ms ≠ [])
    (hr1 : ∀ p ∈ out1.m2ms, ∃ i, p.2 = Value.ref i)
    (h2 : processColumns specs feed row2
        { fields := initFields m feed, m2ms := [],
          store := (importRow m specs feed st0 row1).1 } = .ok out2)
    (hm2 : out2.m2ms ≠ [])
    (hr2 : ∀ p ∈ out2.m2ms, ∃ i, p.2 = Value.ref i)
    (heq : out2.fields = out1.fields)
    (hnomatch : ∀ r ∈ st0.records, recMatches r out1.fields = false) :
    ∃ st2 : Store,
      importTxt m feed st0 [row1, row2] = (st2, none) ∧
      st2.records.length = st0.records.length + 1 ∧
      st2.records.countP (fun r => recMatches r out1.fields) = 1 ∧
      ∀ r ∈ st2.records, recMatches r out1.fields = true →
        (∀ fname i, ((fname, Value.ref i) ∈ out1.m2ms ∨ (fname, Value.ref i) ∈ out2.m2ms) →
          i ∈ r.m2mAt fname) ∧
        (∀ fname, (r.m2mAt fname).Nodup) := by
  have hinitnd : (((initFields m feed).map Prod.fst)).Nodup := by
    unfold initFields
    split_ifs <;> simp
  have hkeys : (out1.fields.map Prod.fst).Nodup :=
    processColumns_fields_nodup specs feed row1 _ out1 hinitnd h1
  have hrec1 : out1.store.records = st0.records :=
    processColumns_records specs feed row1 _ out1 h1
  have hGOC1 : getOrCreate out1.store out1.fields =
      (st0.records.length,
       { out1.store with
         records := st0.records ++ [{ fields := out1.fields, m2m := [] }] }) := by
    have hno : ∀ r ∈ out1.store.records, recMatches r out1.fields = false := by
      intro r hr
      exact hnomatch r (hrec1 ▸ hr)
    rw [getOrCreate_new out1.store out1.fields hno, hrec1]
  have hget1 : ({ out1.store with
      records := st0.records ++ [{ fields := out1.fields, m2m := [] }] } : Store).records.get?
        st0.records.length = some { fields := out1.fields, m2m := [] } := by
    exact List.get?_concat_length _ _
  obtain ⟨r1, heqA, hfieldsA, hmemA, hndA⟩ :=
    addAllM2m_spec out1.m2ms _ st0.records.length { fields := out1.fields, m2m := [] }
      hget1 hr1
  have heqA2 : addAllM2m
      { out1.store with
        records := st0.records ++ [{ fields := out1.fields, m2m := [] }] }
      st0.records.length out1.m2ms =
      ({ out1.store with records := st0.records ++ [r1] }, none) := by
    rw [heqA]
    rw [show ({ out1.store with
        records := st0.records ++ [{ fields := out1.fields, m2m := [] }] } : Store).records =
      st0.records ++ [{ fields := out1.fields, m2m := [] }] from rfl]
    rw [set_concat_length]
  have himp1 : importRow m specs feed st0 row1 =
      ({ out1.store with records := st0.records ++ [r1] }, none) := by
    unfold importRow
    rw [h1]
    dsimp only
    rw [if_neg hm1, hGOC1]
    dsimp only
    exact heqA2
  rw [himp1] at h2
  have hrec2 : out2.store.records = st0.records ++ [r1] :=
    processColumns_records specs feed row2 _ out2 h2
  have hr1fields : r1.fields = out1.fields := hfieldsA
  have hr1match : recMatches r1 out1.fields = true :=
    recMatches_of_fields_eq r1 out1.fields hr1fields hkeys
  have hGOC2 : getOrCreate out2.store out2.fields = (st0.records.length, out2.store) := by
    rw [heq]
    exact getOrCreate_found_last out2.store out1.fields st0.records r1 hrec2 hnomatch hr1match
  have hget2 : out2.store.records.get? st0.records.length = some r1 := by
    rw [hrec2]
    exact List.get?_concat_length _ _
  obtain ⟨r2, heqB, hfieldsB, hmemB, hndB⟩ :=
    addAllM2m_spec out2.m2ms out2.store st0.records.length r1 hget2 hr2
  have heqB2 : addAllM2m out2.store st0.records.length out2.m2ms =
      ({ out2.store with records := st0.records ++ [r2] }, none) := by
    rw [heqB, hrec2, set_concat_length]
  have himp2 : importRow m specs feed
      ({ out1.store with records := st0.records ++ [r1] } : Store) row2 =
      ({ out2.store with records := st0.records ++ [r2] }, none) := by
    unfold importRow
    rw [h2]
    dsimp only
    rw [if_neg hm2, hGOC2]
    dsimp only
    exact heqB2
  refine ⟨{ out2.store with records := st0.records ++ [r2] }, ?_, ?_, ?_, ?_⟩
  · simp only [importTxt, hspecs, importRows_cons, himp1, himp2, importRows]
  · simp
  · rw [show ({ out2.store with records := st0.records ++ [r2] } : Store).records =
        st0.records ++ [r2] from rfl]
    rw [List.countP_append]
    have hz : st0.records.countP (fun r => recMatches r out1.fields) = 0 := by
      rw [List.countP_eq_zero]
      intro r hr
      simp [hnomatch r hr]
    have hr2fields : r2.fields = out1.fields := hfieldsB.trans hr1fields
    have hr2match : recMatches r2 out1.fields = true :=
      recMatches_of_fields_eq r2 out1.fields hr2fields hkeys
    rw [hz]
    simp [List.countP_cons, hr2match]
  · intro r hr hmatch
    rw [show ({ out2.store with records := st0.records ++ [r2] } : Store).records =
        st0.records ++ [r2] from rfl] at hr
    rcases List.mem_append.mp hr with hr0 | hrr
    · rw [hnomatch r hr0] at hmatch
      cases hmatch
    · rcases List.mem_cons.mp hrr with rfl | hcontra
      · constructor
        · intro fname i hmem
          rcases hmem with hmem | hmem
          · exact (hmemB fname i).mpr (Or.inl ((hmemA fname i).mpr (Or.inr hmem)))
          · exact (hmemB fname i).mpr (Or.inr hmem)
        · intro fname
          apply hndB
          apply hndA
          rw [m2mAt_nil]
          exact List.nodup_nil
      · cases hcontra

theorem c1_m2m_union_witness :
    ∃ st2 : Store,
      importTxt exTripModel 7 emptyStore [exRowT1A, exRowT1B] = (st2, none) ∧
      st2.records.length = emptyStore.records.length + 1 ∧
      st2.records.countP (fun r => recMatches r exOut1.fields) = 1 ∧
      ∀ r ∈ st2.records, recMatches r exOut1.fields = true →
        (∀ fname i,
          ((fname, Value.ref i) ∈ exOut1.m2ms ∨ (fname, Value.ref i) ∈ exOut2.m2ms) →
          i ∈ r.m2mAt fname) ∧
        (∀ fname, (r.m2mAt fname).Nodup) := by
  refine c1_m2m_union exTripModel exTripSpecs 7 emptyStore exRowT1A exRowT1B exOut1 exOut2
    rfl rfl (by decide) ?_ rfl (by decide) ?_ rfl ?_
  · rintro p hp
    rcases List.mem_singleton.mp hp with rfl
    exact ⟨0, rfl⟩
  · rintro p hp
    rcases List.mem_singleton.mp hp with rfl
    exact ⟨1, rfl⟩
  · intro r hr
    cases hr

/-! ## C5: export/import round trip for required scalar columns -/

theorem digitChar_isDigit (n : Nat) (h : n < 10) : (Nat.digitChar n).isDigit = true := by
  interval_cases n <;> decide

theorem digitVal_digitChar (n : Nat) (h : n < 10) : digitVal (Nat.digitChar n) = n := by
  interval_cases n <;> decide

theorem strptime_serialize (y mo d : Nat) (hy1 : 1 ≤ y) (hy : y ≤ 9999)
    (hm1 : 1 ≤ mo) (hm : mo ≤ 12) (hd1 : 1 ≤ d) (hd : d ≤ daysInMonth y mo) :
    strptimeYmd [Nat.digitChar (y / 1000 % 10), Nat.digitChar (y / 100 % 10),
                 Nat.digitChar (y / 10 % 10), Nat.digitChar (y % 10),
                 Nat.digitChar (mo / 10 % 10), Nat.digitChar (mo % 10),
                 Nat.digitChar (d / 10 % 10), Nat.digitChar (d % 10)] = some (y, mo, d) := by
  have hyv : ymdDigits [Nat.digitChar (y / 1000 % 10), Nat.digitChar (y / 100 % 10),
      Nat.digitChar (y / 10 % 10), Nat.digitChar (y % 10)] = y := by
    rw [ymdDigits_four, digitVal_digitChar _ (Nat.mod_lt _ (by omega)),
        digitVal_digitChar _ (Nat.mod_lt _ (by omega)),
        digitVal_digitChar _ (Nat.mod_lt _ (by omega)),
        digitVal_digitChar _ (Nat.mod_lt _ (by omega))]
    omega
  have hmv : ymdDigits [Nat.digitChar (mo / 10 % 10), Nat.digitChar (mo % 10)] = mo := by
    rw [ymdDigits_two, digitVal_digitChar _ (Nat.mod_lt _ (by omega)),
        digitVal_digitChar _ (Nat.mod_lt _ (by omega))]
    omega
  have hdv : ymdDigits [Nat.digitChar (d / 10 % 10), Nat.digitChar (d % 10)] = d := by
    have hd31 : d ≤ 31 := hd.trans (daysInMonth_le y mo)
    rw [ymdDigits_two, digitVal_digitChar _ (Nat.mod_lt _ (by omega)),
        digitVal_digitChar _ (Nat.mod_lt _ (by omega))]
    omega
  rw [strptimeYmd_complete _ _ _ _ _ _ _ _
    (digitChar_isDigit _ (Nat.mod_lt _ (by omega))) (digitChar_isDigit _ (Nat.mod_lt _ (by omega)))
    (digitChar_isDigit _ (Nat.mod_lt _ (by omega))) (digitChar_isDigit _ (Nat.mod_lt _ (by omega)))
    (digitChar_isDigit _ (Nat.mod_lt _ (by omega))) (digitChar_isDigit _ (Nat.mod_lt _ (by omega)))
    (digitChar_isDigit _ (Nat.mod_lt _ (by omega))) (digitChar_isDigit _ (Nat.mod_lt _ (by omega)))
    (by rw [hyv]; exact hy1) (by rw [hmv]; exact hm1) (by rw [hmv]; exact hm)
    (by rw [hdv]; exact hd1) (by rw [hdv, hyv, hmv]; exact hd), hyv, hmv, hdv]

theorem charConvert_some (s : String) : charConvert (some s) = .str s := by
  by_cases hs : s = ""
  · subst hs
    rfl
  · simp [charConvert, truthy, hs]

/-- Serializing a round-trippable scalar value and converting it back
yields the value again, with the store untouched. -/
theorem convert_serialize (f : Field) (relName : Option String) (feed : Nat)
    (stS stx : Store) (v : Value) (hrt : RoundTrippable f v) :
    fieldConvert f relName feed stx (some (serializeValue stS v)) = .ok (v, stx) := by
  unfold RoundTrippable at hrt
  rcases hk : f.kind with _ | _ | _ | t | t | _ <;> rw [hk] at hrt
  · obtain ⟨y, mo, d, rfl, hy1, hy, hm1, hm, hd1, hd⟩ := hrt
    have hser : serializeValue stS (.date y mo d) =
        String.mk [Nat.digitChar (y / 1000 % 10), Nat.digitChar (y / 100 % 10),
                   Nat.digitChar (y / 10 % 10), Nat.digitChar (y % 10),
                   Nat.digitChar (mo / 10 % 10), Nat.digitChar (mo % 10),
                   Nat.digitChar (d / 10 % 10), Nat.digitChar (d % 10)] := rfl
    rw [hser]
    simp only [fieldConvert, hk, if_pos]
    unfold dateConvert
    dsimp only
    rw [strptime_serialize y mo d hy1 hy hm1 hm hd1 hd]
    rfl
  · obtain ⟨b, rfl⟩ := hrt
    cases b <;> simp [fieldConvert, hk, serializeValue, boolConvert]
  · obtain ⟨s, rfl⟩ := hrt
    simp only [fieldConvert, hk]
    rw [show serializeValue stS (.str s) = s from rfl, charConvert_some]
    simp
  · exact absurd hrt (by simp)
  · exact absurd hrt (by simp)
  · by_cases hn : f.null = true
    · rw [if_pos hn] at hrt
      have hchain : fieldConvert f relName feed stx (some (serializeValue stS v)) =
          .ok (nullConvert (some (serializeValue stS v)), stx) := by
        simp [fieldConvert, hk, FieldKind.hasRel, hn]
      rcases hrt with rfl | ⟨s, rfl, hs⟩
      · rw [hchain]
        rfl
      · rw [hchain]
        rw [show serializeValue stS (.str s) = s from rfl]
        simp [nullConvert, truthy, hs]
    · rw [if_neg hn] at hrt
      have hnf : f.null = false := by
        cases hq : f.null
        · rfl
        · exact absurd hq hn
      by_cases hdf : f.hasDefault = true
      · rw [if_pos hdf] at hrt
        obtain ⟨s, rfl, hs⟩ := hrt
        have hchain : fieldConvert f relName feed stx (some s) =
            .ok (defaultConvert f (some s), stx) := by
          simp [fieldConvert, hk, FieldKind.hasRel, hnf, hdf]
        rw [show serializeValue stS (.str s) = s from rfl, hchain]
        simp [defaultConvert, hs]
      · rw [if_neg hdf] at hrt
        obtain ⟨s, rfl⟩ := hrt
        have hdff : f.hasDefault = false := by
          cases hq : f.hasDefault
          · rfl
          · exact absurd hq hdf
        have hchain : fieldConvert f relName feed stx (some s) =
            .ok (noConvert (some s), stx) := by
          simp [fieldConvert, hk, FieldKind.hasRel, hnf, hdff]
        rw [show serializeValue stS (.str s) = s from rfl, hchain]
        rfl

theorem find?_mapSet (l : List (String × Value)) (k : String) (v : Value) (k2 : String) :
    (l.map (fun p => if p.1 = k then (k, v) else p)).find? (fun p => p.1 = k2) =
      if k2 = k then (l.find? (fun p => p.1 = k)).map (fun _ => (k, v))
      else l.find? (fun p => p.1 = k2) := by
  induction l with
  | nil => split_ifs <;> rfl
  | cons p rest ih =>
      by_cases hp : p.1 = k
      · by_cases h2 : k2 = k
        · subst h2
          simp [List.find?, hp, ih]
        · have hkk2 : ¬k = k2 := fun h => h2 h.symm
          simp [List.find?, hp, h2, hkk2, ih]
      · by_cases h2 : k2 = k
        · subst h2
          simp [List.find?, hp, ih]
        · by_cases hpk2 : p.1 = k2
          · simp [List.find?, hp, hpk2, h2]
          · simp [List.find?, hp, hpk2, h2, ih]

theorem lookupKV_setField (l : List (String × Value)) (k : String) (v : Value)
    (k2 : String) :
    lookupKV (setField l k v) k2 = if k2 = k then some v else lookupKV l k2 := by
  unfold setField lookupKV
  by_cases hany : l.any (fun p => p.1 = k) = true
  · rw [if_pos hany, find?_mapSet]
    by_cases h2 : k2 = k
    · subst h2
      rw [if_pos rfl, if_pos rfl]
      rcases hf : l.find? (fun p => p.1 = k2) with _ | q
      · rcases List.any_eq_true.mp hany with ⟨p, hp, hpk⟩
        rw [List.find?_eq_none] at hf
        exact absurd hpk (by simpa using hf p hp)
      · rw [hf]
        simp
    · rw [if_neg h2, if_neg h2]
  · rw [if_neg hany]
    by_cases h2 : k2 = k
    · subst h2
      rw [if_pos rfl, List.find?_append]
      have hnone : l.find? (fun p => p.1 = k2) = none := by
        rw [List.find?_eq_none]
        intro p hp
        simp only [decide_eq_true_eq]
        intro hc
        exact hany (List.any_eq_true.mpr ⟨p, hp, by simp [hc]⟩)
      rw [hnone]
      simp [List.find?]
    · rw [if_neg h2, List.find?_append]
      have hsing : List.find? (fun p => p.1 = k2) [(k, v)] = none := by
        have hkk2 : ¬k = k2 := fun h => h2 h.symm
        simp [List.find?, hkk2]
      rw [hsing]
      simp

theorem lookupKV_foldl_ne (work : List ColSpec) (valOf : ColSpec → Value) :
    ∀ (base : List (String × Value)) (k : String),
      (∀ sp ∈ work, sp.fieldName ≠ k) →
      lookupKV (work.foldl (fun fl sp => setField fl sp.fieldName (valOf sp)) base) k =
        lookupKV base k := by
  induction work with
  | nil => intro base k _; rfl
  | cons sp rest ih =>
      intro base k hk
      rw [List.foldl_cons, ih _ k (fun q hq => hk q (List.mem_cons_of_mem _ hq)),
          lookupKV_setField,
          if_neg (fun h => hk sp (List.mem_cons_self _ _) h.symm)]

theorem lookupKV_foldl_mem (work : List ColSpec) (valOf : ColSpec → Value) :
    ∀ (base : List (String × Value)) (sp : ColSpec),
      sp ∈ work → (work.map (fun q => q.fieldName)).Nodup →
      lookupKV (work.foldl (fun fl q => setField fl q.fieldName (valOf q)) base)
        sp.fieldName = some (valOf sp) := by
  induction work with
  | nil => intro base sp hsp; cases hsp
  | cons a rest ih =>
      intro base sp hsp hnd
      rw [List.map_cons, List.nodup_cons] at hnd
      rcases List.mem_cons.mp hsp with rfl | hsp2
      · rw [List.foldl_cons,
            lookupKV_foldl_ne rest valOf _ sp.fieldName
              (fun q hq h => hnd.1 (h ▸ List.mem_map_of_mem _ hq)),
            lookupKV_setField, if_pos rfl]
      · rw [List.foldl_cons]
        exact ih _ sp hsp2 hnd.2

theorem find?_unique_colspec (l : List ColSpec) (name : String)
    (hnd : (l.map (fun q => q.csvName)).Nodup) (sp : ColSpec) (hsp : sp ∈ l)
    (hname : sp.csvName = name) :
    l.find? (fun q => q.csvName = name) = some sp := by
  induction l with
  | nil => cases hsp
  | cons a rest ih =>
      rw [List.map_cons, List.nodup_cons] at hnd
      rcases List.mem_cons.mp hsp with rfl | hsp2
      · simp [List.find?, hname]
      · have ha : ¬a.csvName = name := by
          intro hc
          exact hnd.1 ((hc.trans hname.symm) ▸ List.mem_map_of_mem _ hsp2)
        simp only [List.find?, decide_eq_false ha, cond_false]
        exact ih hnd.2 hsp2

theorem findSpec_self (specs : List ColSpec)
    (hnd : (specs.map (fun q => q.csvName)).Nodup) (sp : ColSpec) (hsp : sp ∈ specs) :
    findSpec specs sp.csvName = some sp := by
  unfold findSpec
  exact find?_unique_colspec specs.reverse sp.csvName
    (by rw [List.map_reverse]; exact List.nodup_reverse.mpr hnd) sp
    (List.mem_reverse.mpr hsp) rfl

theorem scalar_not_m2m (sp : ColSpec) (h : sp.field.kind.isScalar = true) :
    sp.isM2M = false := by
  unfold ColSpec.isM2M
  rcases hk : sp.field.kind with _ | _ | _ | t | t | _ <;>
    simp [FieldKind.isMany] <;> rw [hk] at h <;> simp [FieldKind.isScalar] at h

theorem processColumns_ok_row (specs : List ColSpec) (feed : Nat)
    (cellOf : ColSpec → String) (valOf : ColSpec → Value) :
    ∀ (work : List ColSpec) (acc : RowOut),
      (∀ sp ∈ work, findSpec specs sp.csvName = some sp) →
      (∀ sp ∈ work, sp.isM2M = false) →
      (∀ sp ∈ work, ∀ stx : Store,
        fieldConvert sp.field sp.relName feed stx (some (cellOf sp)) = .ok (valOf sp, stx)) →
      processColumns specs feed (work.map (fun sp => (sp.csvName, some (cellOf sp)))) acc =
        .ok { fields := work.foldl (fun fl sp => setField fl sp.fieldName (valOf sp)) acc.fields,
              m2ms := acc.m2ms, store := acc.store } := by
  intro work
  induction work with
  | nil => intro acc _ _ _; rfl
  | cons sp rest ih =>
      intro acc hfind hm2m hconv
      rw [List.map_cons, processColumns]
      simp only [hfind sp (List.mem_cons_self _ _)]
      rw [hconv sp (List.mem_cons_self _ _) acc.store]
      dsimp only
      rw [if_neg (by rw [hm2m sp (List.mem_cons_self _ _)]; simp)]
      rw [ih { acc with fields := setField acc.fields sp.fieldName (valOf sp), store := acc.store }
        (fun q hq => hfind q (List.mem_cons_of_mem _ hq))
        (fun q hq => hm2m q (List.mem_cons_of_mem _ hq))
        (fun q hq => hconv q (List.mem_cons_of_mem _ hq))]
      rfl

theorem importRows_scalar (m : GtfsModel) (specs : List ColSpec) (feed : Nat)
    (cellOf : Record → ColSpec → String) (valOf : Record → ColSpec → Value)
    (work : List ColSpec)
    (hfind : ∀ sp ∈ work, findSpec specs sp.csvName = some sp)
    (hm2m : ∀ sp ∈ work, sp.isM2M = false) :
    ∀ (rs : List Record) (st1 : Store),
      (∀ r ∈ rs, ∀ sp ∈ work, ∀ stx : Store,
        fieldConvert sp.field sp.relName feed stx (some (cellOf r sp)) =
          .ok (valOf r sp, stx)) →
      importRows m specs feed st1
        (rs.map (fun r => work.map (fun sp => (sp.csvName, some (cellOf r sp))))) =
        ({ st1 with
           records := st1.records ++ rs.map (fun r =>
             { fields := work.foldl
                 (fun fl sp => setField fl sp.fieldName (valOf r sp)) (initFields m feed),
               m2m := [] }) }, none) := by
  intro rs
  induction rs with
  | nil =>
      intro st1 _
      simp [importRows]
  | cons r rest ih =>
      intro st1 hconv
      rw [List.map_cons, importRows_cons]
      have hrow : importRow m specs feed st1
          (work.map (fun sp => (sp.csvName, some (cellOf r sp)))) =
          ({ st1 with
             records := st1.records ++
               [{ fields := work.foldl
                    (fun fl sp => setField fl sp.fieldName (valOf r sp)) (initFields m feed),
                  m2m := [] }] }, none) := by
        unfold importRow
        rw [processColumns_ok_row specs feed (cellOf r) (valOf r) work
          { fields := initFields m feed, m2ms := [], store := st1 }
          hfind hm2m (hconv r (List.mem_cons_self _ _))]
        rfl
      rw [hrow]
      dsimp only
      rw [ih _ (fun q hq => hconv q (List.mem_cons_of_mem _ hq))]
      rw [Prod.mk.injEq]
      constructor
      · rw [show ({ st1 with
            records := st1.records ++
              [{ fields := work.foldl
                   (fun fl sp => setField fl sp.fieldName (valOf r sp)) (initFields m feed),
                 m2m := [] }] } : Store).records =
            st1.records ++
              [{ fields := work.foldl
                   (fun fl sp => setField fl sp.fieldName (valOf r sp)) (initFields m feed),
                 m2m := [] }] from rfl]
        rw [List.append_assoc]
        rfl
      · rfl

/-- C5: for a schema whose mapped columns are all required scalars, and
records whose values are typed for their fields (`RoundTrippable`),
importing the text produced by export reproduces the records: same count
and order, the feed reference set from the import context, and every
mapped field equal to the original under field-value equality. -/
theorem c5_round_trip (m : GtfsModel) (specs : List ColSpec) (stS st1 : Store)
    (feed : Nat) (records : List Record)
    (hspecs : buildSpecs m = some specs)
    (hfeed : m.relToFeed = "feed")
    (hscalar : ∀ sp ∈ specs, sp.field.kind.isScalar = true)
    (hreq : ∀ sp ∈ specs, optionalField sp.field = false)
    (hcsv : (specs.map (fun sp => sp.csvName)).Nodup)
    (hfld : (specs.map (fun sp => sp.fieldName)).Nodup)
    (hnotfeed : ∀ sp ∈ specs, sp.fieldName ≠ "feed")
    (hne : records ≠ [])
    (hst1 : st1.records = [])
    (hrecs : ∀ r ∈ records, ∀ sp ∈ specs, ∃ v, lookupField r sp.fieldName = some v ∧
      RoundTrippable sp.field v) :
    ∃ csv : Csv, exportTxt m stS records = .ok (some csv) ∧
      (importTxt m feed st1 (csvRows csv)).2 = none ∧
      List.Forall₂ (fun r r2 =>
          lookupField r2 "feed" = some (.ref feed) ∧
          ∀ sp ∈ specs, lookupField r2 sp.fieldName = lookupField r sp.fieldName)
        records (importTxt m feed st1 (csvRows csv)).1.records := by
  have hcols : exportColumns specs records = specs := by
    unfold exportColumns
    rw [List.filter_eq_self]
    intro sp hsp
    unfold includeCol
    rw [hreq sp hsp]
    simp
  have hemp : records.isEmpty = false := by
    cases records with
    | nil => exact absurd rfl hne
    | cons a l => rfl
  have hexp : exportTxt m stS records = .ok (some (createCsv stS records specs)) := by
    rw [exportTxt, hemp, hspecs]
    simp only [Bool.false_eq_true, if_false]
    rw [hcols]
  have hrows : csvRows (createCsv stS records specs) =
      records.map (fun r => specs.map (fun sp =>
        (sp.csvName, some (serializeValue stS ((lookupField r sp.fieldName).getD .null))))) := by
    unfold csvRows createCsv
    rw [List.map_map]
    apply List.map_congr_left
    intro r _
    dsimp only [Function.comp]
    rw [List.map_map, List.zip_map']
    rfl
  have hconv : ∀ r ∈ records, ∀ sp ∈ specs, ∀ stx : Store,
      fieldConvert sp.field sp.relName feed stx
        (some (serializeValue stS ((lookupField r sp.fieldName).getD .null))) =
        .ok ((lookupField r sp.fieldName).getD .null, stx) := by
    intro r hr sp hsp stx
    obtain ⟨v, hl, hrt⟩ := hrecs r hr sp hsp
    rw [hl]
    exact convert_serialize sp.field sp.relName feed stS stx v hrt
  have himp := importRows_scalar m specs feed
    (fun r sp => serializeValue stS ((lookupField r sp.fieldName).getD .null))
    (fun r sp => (lookupField r sp.fieldName).getD .null)
    specs (fun sp hsp => findSpec_self specs hcsv sp hsp)
    (fun sp hsp => scalar_not_m2m sp (hscalar sp hsp))
    records st1 hconv
  have himpTxt : importTxt m feed st1 (csvRows (createCsv stS records specs)) =
      ({ st1 with
         records := st1.records ++ records.map (fun r =>
           { fields := specs.foldl
               (fun fl sp => setField fl sp.fieldName
                 ((lookupField r sp.fieldName).getD .null)) (initFields m feed),
             m2m := [] }) }, none) := by
    rw [hrows]
    simp only [importTxt, hspecs]
    exact himp
  refine ⟨createCsv stS records specs, hexp, ?_, ?_⟩
  · rw [himpTxt]
  · rw [himpTxt]
    dsimp only
    rw [hst1, List.nil_append]
    rw [List.forall₂_map_right_iff]
    rw [List.forall₂_same]
    intro r hr
    have hinit : initFields m feed = [("feed", Value.ref feed)] := by
      unfold initFields
      rw [if_pos hfeed]
    constructor
    · rw [lookupField]
      dsimp only
      rw [lookupKV_foldl_ne specs _ _ "feed" (fun sp hsp => hnotfeed sp hsp), hinit]
      rfl
    · intro sp hsp
      rw [lookupField]
      dsimp only
      rw [lookupKV_foldl_mem specs _ _ sp hsp hfld]
      obtain ⟨v, hl, -⟩ := hrecs r hr sp hsp
      rw [hl]
      rfl


theorem c5_round_trip_witness :
    ∃ csv : Csv, exportTxt exReqModel emptyStore [exRecS1] = .ok (some csv) ∧
      (importTxt exReqModel 5 emptyStore (csvRows csv)).2 = none ∧
      List.Forall₂ (fun r r2 =>
          lookupField r2 "feed" = some (.ref 5) ∧
          ∀ sp ∈ exReqSpecs, lookupField r2 sp.fieldName = lookupField r sp.fieldName)
        [exRecS1] (importTxt exReqModel 5 emptyStore (csvRows csv)).1.records := by
  refine c5_round_trip exReqModel exReqSpecs emptyStore emptyStore 5 [exRecS1]
    rfl rfl (by decide) (by decide) (by decide) (by decide) (by decide) (by decide) rfl ?_
  intro r hr sp hsp
  rcases List.mem_singleton.mp hr with rfl
  rcases List.mem_cons.mp hsp with rfl | hsp2
  · exact ⟨.str "S1", rfl, ⟨"S1", rfl⟩⟩
  · rcases List.mem_singleton.mp hsp2 with rfl
    exact ⟨.date 2024 2 29, rfl,
      ⟨2024, 2, 29, rfl, by decide, by decide, by decide, by decide, by decide, by decide⟩⟩

end MultiGtfs
